import Mathlib

/-!
Verification of the subordinate-identity allocation engine and the
line-oriented config parser/merger of the oci-lxc-deployer repository.

The Python sources embedded here are
src/json/shared/scripts/library/setup_lxc_idmap_common.py (allocator,
merger, resolver, orchestration), src/json/shared/scripts/library/
lxc_config_parser_lib.py (marker extractor) and src/json/shared/scripts/
pre_start/host-write-lxc-notes.py (notes builder).

Python strings are modelled as Lean String values and all string
manipulation is carried out on the underlying character lists, so every
definition is executable.  Python int values are modelled as Int, raised
exceptions as Except/Option.  The following deliberate simplifications of
the Python runtime are documented where they occur: str.strip and
str.split use the six ASCII whitespace characters; int() accepts an
optional sign and ASCII digits (the PEP-515 underscore extension is not
modelled); urllib.parse.unquote is modelled for single-byte ASCII escapes
(multi-byte UTF-8 percent sequences do not occur in any input considered
here); str.lower lowercases ASCII letters.
-/

namespace OciLxc

/-- The six characters stripped by Python str.strip() / str.split(). -/
def pyIsSpace (c : Char) : Bool :=
  c = ' ' || c = '\t' || c = '\n' || c = '\r' || c = '\x0b' || c = '\x0c'

/-- Character of a decimal digit, as produced by Python str(int). -/
def digitChar (d : Nat) : Char :=
  match d with
  | 0 => '0' | 1 => '1' | 2 => '2' | 3 => '3' | 4 => '4'
  | 5 => '5' | 6 => '6' | 7 => '7' | 8 => '8' | _ => '9'

/-- Numeric value of a decimal digit character, none otherwise. -/
def digitVal (c : Char) : Option Nat :=
  if '0' ≤ c ∧ c ≤ '9' then some (c.toNat - '0'.toNat) else none

/-- Fuelled helper producing the decimal digits of a natural number,
most significant first; the fuel only has to exceed the number itself. -/
def natToCharsAux : Nat → Nat → List Char
  | 0, _ => []
  | fuel + 1, n =>
    if n < 10 then [digitChar n]
    else natToCharsAux fuel (n / 10) ++ [digitChar (n % 10)]

/-- Decimal rendering of a natural number, as Python str(int) does. -/
def natToChars (n : Nat) : List Char := natToCharsAux (n + 1) n

/-- Decimal rendering of an integer, as Python str(int) does. -/
def intToChars (i : Int) : List Char :=
  if i < 0 then '-' :: natToChars i.natAbs else natToChars i.natAbs

/-- Decimal rendering of an integer as a Lean string. -/
def intToStr (i : Int) : String := String.mk (intToChars i)

/-- Accumulating decimal parser over a character list; none on the first
non-digit character. -/
def parseDigitsAux : List Char → Nat → Option Nat
  | [], acc => some acc
  | c :: cs, acc =>
    match digitVal c with
    | some d => parseDigitsAux cs (acc * 10 + d)
    | none => none

/-- Parse a non-empty all-digit character list as a natural number. -/
def parseNatChars : List Char → Option Nat
  | [] => none
  | c :: cs => parseDigitsAux (c :: cs) 0

/-- Model of Python int(token) on a whitespace-free token: optional sign
followed by decimal digits (PEP-515 underscores are not modelled; no
claim exercises them). -/
def pyIntChars (l : List Char) : Option Int :=
  match l with
  | [] => none
  | c :: rest =>
    if c = '-' then (parseNatChars rest).map (fun n => -(n : Int))
    else if c = '+' then (parseNatChars rest).map (fun n => (n : Int))
    else (parseNatChars (c :: rest)).map (fun n => (n : Int))

/-- Model of Python str.strip() on a character list: drop whitespace from
both ends. -/
def pyStripChars (l : List Char) : List Char :=
  ((l.dropWhile pyIsSpace).reverse.dropWhile pyIsSpace).reverse

/-- Model of Python str.strip() on a string. -/
def pyStrip (s : String) : String := String.mk (pyStripChars s.data)

/-- Boolean list-prefix test used to model Python str.startswith. -/
def listStartsWith (pre l : List Char) : Bool := pre.isPrefixOf l

/-- Accumulating splitter for Python str.split() with no argument:
whitespace runs separate tokens and empty tokens are dropped. -/
def splitWSAux : List Char → List Char → List (List Char)
  | [], acc => if acc.isEmpty then [] else [acc.reverse]
  | c :: cs, acc =>
    if pyIsSpace c then
      if acc.isEmpty then splitWSAux cs [] else acc.reverse :: splitWSAux cs []
    else splitWSAux cs (c :: acc)

/-- Model of Python str.split() with no argument. -/
def pySplitWSChars (l : List Char) : List (List Char) := splitWSAux l []

/-- Accumulating splitter for Python str.split(sep) with a one-character
separator: empty pieces are kept, as Python does. -/
def splitOnCharAux (sep : Char) : List Char → List Char → List (List Char)
  | [], acc => [acc.reverse]
  | c :: cs, acc =>
    if c = sep then acc.reverse :: splitOnCharAux sep cs []
    else splitOnCharAux sep cs (c :: acc)

/-- Accumulating splitter modelling Python readlines/splitlines(True):
chunks keep their trailing newline; a last chunk without one is kept. -/
def splitKeepNlAux : List Char → List Char → List (List Char)
  | [], acc => if acc.isEmpty then [] else [acc.reverse]
  | c :: cs, acc =>
    if c = '\n' then (acc.reverse ++ ['\n']) :: splitKeepNlAux cs []
    else splitKeepNlAux cs (c :: acc)

/-- Model of Python file.readlines() / str.splitlines(True) on the text of
a file (the open-in-text-mode newline translation is outside the model:
the texts considered here use plain newlines). -/
def pyReadlines (s : String) : List String :=
  (splitKeepNlAux s.data []).map String.mk

/-- Model of Python str.replace on the one-character pattern "=" with
replacement ":" (used by the idmap line recognizers). -/
def replaceEqColonChars (l : List Char) : List Char :=
  l.map (fun c => if c = '=' then ':' else c)

/-- Concatenation of a list of strings, modelling sequential writes /
"".join. -/
def concatStrings (ls : List String) : String :=
  String.mk (ls.map String.data).flatten

/-- Model of Python str.isdigit restricted to ASCII digits (the Unicode
digit classes do not occur in the inputs considered here). -/
def pyIsDigitStr (s : String) : Bool :=
  ¬ s.data.isEmpty && s.data.all (fun c => (digitVal c).isSome)

/-- Model of Python str.lower restricted to ASCII letters. -/
def asciiLower (c : Char) : Char :=
  if 'A' ≤ c ∧ c ≤ 'Z' then Char.ofNat (c.toNat + 32) else c

/-- Lowercase a character list (ASCII model of str.lower). -/
def lowerChars (l : List Char) : List Char := l.map asciiLower

/-- Insert an integer into an ascending duplicate-free list, keeping it
ascending and duplicate-free. -/
def insertSortedDedup (x : Int) : List Int → List Int
  | [] => [x]
  | y :: ys =>
    if x < y then x :: y :: ys
    else if x = y then y :: ys
    else y :: insertSortedDedup x ys

/-- Model of Python sorted(set(l)) for integers. -/
def sortedDedup (l : List Int) : List Int := l.foldr insertSortedDedup []

/-- Sequence a list of optional values; none if any element is none.
Models a Python comprehension that may raise on any element. -/
def seqOptions {α : Type} : List (Option α) → Option (List α)
  | [] => some []
  | none :: _ => none
  | some a :: rest => (seqOptions rest).map (fun l => a :: l)

/-!
Embedding of src/json/shared/scripts/library/setup_lxc_idmap_common.py.
-/

/-- STANDARD_START from setup_lxc_idmap_common.py. -/
def STANDARD_START : Int := 100000

/-- STANDARD_COUNT from setup_lxc_idmap_common.py. -/
def STANDARD_COUNT : Int := 65536

/-- parse_ids from setup_lxc_idmap_common.py: comma-split the string,
strip each piece, drop empty pieces, parse the rest as integers and
return the ascending duplicate-free list; an empty string, a
whitespace-only string or a string stripping to "0" yields []; a piece
that is not an integer raises (modelled as Except.error). -/
def parse_ids (id_str : String) : Except String (List Int) :=
  if id_str = "" ∨ pyStrip id_str = "" ∨ pyStrip id_str = "0" then Except.ok []
  else
    let pieces := (splitOnCharAux ',' id_str.data []).map pyStripChars
    let kept := pieces.filter (fun p => ¬ p.isEmpty)
    match seqOptions (kept.map pyIntChars) with
    | some vals => Except.ok (sortedDedup vals)
    | none => Except.error "invalid literal for int()"

/-- calculate_subid_entries from setup_lxc_idmap_common.py: the standard
subordinate range plus one 1:1 passthrough entry per requested id. -/
def calculate_subid_entries (ids : List Int) : List String :=
  let l := sortedDedup ids
  if l.isEmpty then []
  else
    ("root:" ++ intToStr STANDARD_START ++ ":" ++ intToStr STANDARD_COUNT)
      :: l.map (fun v => "root:" ++ intToStr v ++ ":1")

/-- One rendered lxc.idmap line, as built by the f-strings of
calculate_idmap_entries. -/
def renderIdmapLine (kind : String) (c h n : Int) : String :=
  "lxc.idmap: " ++ kind ++ " " ++ intToStr c ++ " " ++ intToStr h ++ " " ++ intToStr n

/-- The loop of calculate_idmap_entries, producing the
(container_start, host_start, range) triples: for each passthrough id a
preceding shift block (when the gap is non-empty, advancing the host
offset by its size) and the 1:1 singleton, then the trailing shift block
up to 65535 when one remains. -/
def calcIdmapTuplesAux : List Int → Int → Int → List (Int × Int × Int)
  | [], cur, off => if cur ≤ 65535 then [(cur, off, 65536 - cur)] else []
  | p :: rest, cur, off =>
    (if cur < p then [(cur, off, p - cur)] else [])
      ++ ((p, p, 1)
        :: calcIdmapTuplesAux rest (p + 1) (if cur < p then off + (p - cur) else off))

/-- calculate_idmap_entries from setup_lxc_idmap_common.py: validate the
kind, deduplicate and sort the ids, return [] for an empty request and
otherwise render the computed triples as lxc.idmap lines. -/
def calculate_idmap_entries (ids : List Int) (kind : String) : Except String (List String) :=
  if kind = "u" ∨ kind = "g" then
    let l := sortedDedup ids
    if l.isEmpty then Except.ok []
    else
      Except.ok ((calcIdmapTuplesAux l 0 STANDARD_START).map
        (fun t => renderIdmapLine kind t.1 t.2.1 t.2.2))
  else Except.error "kind must be u or g"

/-- update_file from setup_lxc_idmap_common.py, as a pure function from
the current file content (missing file = empty content) to the new one:
collect the stripped non-empty lines, then append every entry that is
not among them, each followed by a newline. -/
def update_file_text (content : String) (entries : List String) : String :=
  let existing := ((pyReadlines content).map pyStrip).filter (fun l => ¬ (l = ""))
  content
    ++ concatStrings ((entries.filter (fun e => ¬ existing.contains e)).map (fun e => e ++ "\n"))

/-- is_target_idmap_line from update_lxc_config_kind: strip the line,
require the "lxc.idmap" prefix, replace "=" by ":", split on whitespace
and compare the second field with the kind. -/
def is_target_idmap_line (line : String) (kind : String) : Bool :=
  let s := pyStripChars line.data
  if listStartsWith "lxc.idmap".data s then
    match pySplitWSChars (replaceEqColonChars s) with
    | _ :: p1 :: _ :: _ => p1 = kind.data
    | _ => false
  else false

/-- update_lxc_config_kind from setup_lxc_idmap_common.py, as a pure
function on the config text (a missing file is created empty first):
validate the kind, drop the lines recognized by is_target_idmap_line,
keep everything else in order and append the new entries, each followed
by a newline. -/
def update_lxc_config_kind_text (text : String) (kind : String)
    (idmap_entries : List String) : Except String String :=
  if kind = "u" ∨ kind = "g" then
    Except.ok (concatStrings
      ((pyReadlines text).filter (fun l => ¬ is_target_idmap_line l kind)
        ++ idmap_entries.map (fun e => e ++ "\n")))
  else Except.error "kind must be u or g"

/-- Per-line step of parse_idmap_lines: strip, require the "lxc.idmap"
prefix, replace "=" by ":", split on whitespace, require at least five
fields with the second equal to the kind, and parse fields three to five
as integers; any failure skips the line. -/
def parseIdmapLineOpt (line : String) (kind : String) : Option (Int × Int × Int) :=
  let s := pyStripChars line.data
  if listStartsWith "lxc.idmap".data s then
    match pySplitWSChars (replaceEqColonChars s) with
    | _ :: p1 :: p2 :: p3 :: p4 :: _ =>
      if p1 = kind.data then
        match pyIntChars p2, pyIntChars p3, pyIntChars p4 with
        | some a, some b, some c => some (a, b, c)
        | _, _, _ => none
      else none
    | _ => none
  else none

/-- Stable insertion into a list sorted by the first component, placing
the new element before existing elements with an equal key; together
with sortByKeyStable this models Python sorted(result, key=t[0]). -/
def insertByKey (x : Int × Int × Int) :
    List (Int × Int × Int) → List (Int × Int × Int)
  | [] => [x]
  | y :: ys => if y.1 < x.1 then y :: insertByKey x ys else x :: y :: ys

/-- Stable sort by the first component, modelling Python sorted with a
key function. -/
def sortByKeyStable (l : List (Int × Int × Int)) : List (Int × Int × Int) :=
  l.foldr insertByKey []

/-- parse_idmap_lines from setup_lxc_idmap_common.py: validate the kind,
keep the parseable lines of that kind in order and sort them by
container start. -/
def parse_idmap_lines (lines : List String) (kind : String) :
    Except String (List (Int × Int × Int)) :=
  if kind = "u" ∨ kind = "g" then
    Except.ok (sortByKeyStable (lines.filterMap (fun l => parseIdmapLineOpt l kind)))
  else Except.error "kind must be u or g"

/-- Helper for detect_unprivileged_from_config: Python
s.split(":", 1)[-1] — everything after the first colon, or the whole
string when there is none. -/
def afterFirstColon (l : List Char) : List Char :=
  if l.contains ':' then (l.dropWhile (fun c => ¬ (c = ':'))).tail else l

/-- detect_unprivileged_from_config from setup_lxc_idmap_common.py: the
first line starting with "unprivileged" decides, via the lowercased
stripped text after the first colon; default true. -/
def detect_unprivileged_from_config : List String → Bool
  | [] => true
  | l :: rest =>
    let s := pyStripChars l.data
    if listStartsWith "unprivileged".data s then
      let v := lowerChars (pyStripChars (afterFirstColon s))
      v = "1".data || v = "true".data || v = "yes".data
    else detect_unprivileged_from_config rest

/-- compute_host_id_for_container_id from setup_lxc_idmap_common.py:
first segment containing the container id wins; otherwise the
unprivileged fallback shifts by STANDARD_START and the privileged one is
the identity. -/
def compute_host_id_for_container_id (cid : Int)
    (segs : List (Int × Int × Int)) (unprivileged : Bool) : Int :=
  match segs with
  | [] => if unprivileged then STANDARD_START + cid else cid
  | (cs, hs, rng) :: rest =>
    if cs ≤ cid ∧ cid < cs + rng then hs + (cid - cs)
    else compute_host_id_for_container_id cid rest unprivileged

/-- The two persisted stores touched by setup_idmap: the subordinate-id
file (/etc/subuid or /etc/subgid) and the container config file; none
models a file that does not exist. -/
structure IdmapStores where
  subFile : Option String
  confFile : Option String
deriving DecidableEq

/-- Tail of setup_idmap after the store updates: detect the privilege
flag, build the segments from the freshly computed entries (falling back
to the config lines, then to the default whole-space shift segment for
unprivileged containers) and resolve the first requested id. -/
def finishSetup (kind : String) (id_list : List Int) (idmap_entries : List String)
    (config_lines : List String) (st : IdmapStores) :
    Except String (IdmapStores × Option Int) :=
  let unprivileged := detect_unprivileged_from_config config_lines
  match (if ¬ idmap_entries.isEmpty
      then parse_idmap_lines (idmap_entries.map (fun e => e ++ "\n")) kind
      else if ¬ config_lines.isEmpty then parse_idmap_lines config_lines kind
      else Except.ok []) with
  | Except.error e => Except.error e
  | Except.ok segs₀ =>
    let segs :=
      if segs₀.isEmpty ∧ unprivileged then [((0 : Int), STANDARD_START, STANDARD_COUNT)]
      else segs₀
    Except.ok (st, some (compute_host_id_for_container_id id_list.headI segs unprivileged))

/-- setup_idmap from setup_lxc_idmap_common.py as a pure state
transition on the two stores: validate the kind, normalize vm_id, parse
the id string and return with the stores untouched when no id was
requested; otherwise merge the subordinate-id entries, merge the idmap
lines into the config when vm_id is numeric, and output the resolved
host id of the first requested id. -/
def setup_idmap (kind id_str vm_id : String) (st : IdmapStores) :
    Except String (IdmapStores × Option Int) :=
  if kind = "u" ∨ kind = "g" then
    let vmId := if vm_id = "" ∨ vm_id = "NOT_DEFINED" ∨ pyStrip vm_id = "" then "" else vm_id
    match parse_ids id_str with
    | Except.error e => Except.error e
    | Except.ok id_list =>
      if id_list.isEmpty then Except.ok (st, none)
      else
        let newSub : String :=
          update_file_text (st.subFile.getD "") (calculate_subid_entries id_list)
        let st₁ : IdmapStores := { st with subFile := some newSub }
        if ¬ (vmId = "") ∧ pyIsDigitStr vmId then
          match calculate_idmap_entries id_list kind with
          | Except.error e => Except.error e
          | Except.ok idmap_entries =>
            match (if ¬ idmap_entries.isEmpty
                then update_lxc_config_kind_text (st₁.confFile.getD "") kind idmap_entries
                else Except.ok (st₁.confFile.getD "")) with
            | Except.error e => Except.error e
            | Except.ok confTextNew =>
              let st₂ : IdmapStores :=
                if ¬ idmap_entries.isEmpty then { st₁ with confFile := some confTextNew }
                else st₁
              let config_lines :=
                match st₂.confFile with
                | some t => pyReadlines t
                | none => []
              finishSetup kind id_list idmap_entries config_lines st₂
        else finishSetup kind id_list [] [] st₁
  else Except.error "kind must be u or g"

/-- Modelled from the spec (section 6, External Interfaces), for judging
claim C4 only: a mapping line of the given kind is, after stripping, a
key equal to "lxc.idmap" (or the spec's abbreviated "idmap"), a ':' or
'=' separator, then the kind discriminator and three integer fields
separated by whitespace.  This is the specification-side recognizer of
an idmap line, deliberately independent of is_target_idmap_line. -/
def specIdmapLineOfKind (line kind : String) : Bool :=
  let s := pyStripChars line.data
  let key := s.takeWhile (fun c => decide (¬ (c = ':' ∨ c = '=')))
  let rest := (s.drop key.length).tail
  decide (key.length < s.length)
  && (decide (pyStripChars key = "lxc.idmap".data)
      || decide (pyStripChars key = "idmap".data))
  && match pySplitWSChars rest with
     | [kc, a, b, c] =>
       decide (kc = kind.data) && (pyIntChars a).isSome && (pyIntChars b).isSome
         && (pyIntChars c).isSome
     | _ => false

/-- The host-offset discipline of a list of shift blocks: the first one
starts at the given offset and each later one starts where the previous
block ended, i.e. offsets grow by exactly the size of each block
consumed. -/
def offsetChainOk : Int → List (Int × Int × Int) → Prop
  | _, [] => True
  | off, t :: ts => t.2.1 = off ∧ offsetChainOk (off + t.2.2) ts

/-- The number of naturals in [0, n) that are not members of S. -/
def cmbNat (S : List Int) (n : Nat) : Nat :=
  (((List.range n).map (fun i : Nat => (i : Int))).filter
    (fun i => ¬ S.contains i)).length

/-- The number of integers in [0, c) that are not members of S (the
"non-passthrough ids below c" of the specification). -/
def countMissingBelow (S : List Int) (c : Int) : Int :=
  cmbNat S c.toNat

/-! ### The config parser library (lxc_config_parser_lib.py) and the
notes builder (host-write-lxc-notes.py)

The library recognizes text with compiled regular expressions.  Each
regular expression is embedded below as an executable matcher whose
backtracking order follows the Python engine (greedy quantifiers try the
longest extent first, lazy quantifiers the shortest); every place where
a quantifier is in fact deterministic is noted at the matcher.  The
patterns compiled with re.MULTILINE and anchored by both caret and
dollar are modelled per physical line; a whitespace class inside them is
modelled as not crossing a newline, which agrees with the engine on
every input considered here. -/

/-- Case-insensitive character comparison, modelling re.IGNORECASE on the
ASCII letters (as documented in the header). -/
def charEqCI (a b : Char) : Bool := decide (asciiLower a = asciiLower b)

/-- Case-insensitive prefix test on character lists. -/
def isPrefixCI : List Char → List Char → Bool
  | [], _ => true
  | _ :: _, [] => false
  | c :: p, d :: s => charEqCI c d && isPrefixCI p s

/-- Model of re.search for a literal pattern compiled with re.IGNORECASE
and no anchors (MANAGED_RE): a case-insensitive substring test. -/
def searchSubCI (pat : List Char) : List Char → Bool
  | [] => isPrefixCI pat []
  | c :: rest => isPrefixCI pat (c :: rest) || searchSubCI pat rest

/-- State machine for Python str.replace applied to the two-character
pattern backslash-n with replacement newline (_normalize_config_text):
the Bool records a backslash read but not yet emitted.  Scanning is left
to right and non-overlapping, as str.replace is. -/
def replEscNlAux : Bool → List Char → List Char
  | false, [] => []
  | true, [] => ['\\']
  | true, c :: rest =>
    if c = 'n' then '\n' :: replEscNlAux false rest
    else if c = '\\' then '\\' :: replEscNlAux true rest
    else '\\' :: c :: replEscNlAux false rest
  | false, c :: rest =>
    if c = '\\' then replEscNlAux true rest
    else c :: replEscNlAux false rest

/-- Model of _normalize_config_text: expand escaped newlines. -/
def normalize_config_text (s : String) : String :=
  String.mk (replEscNlAux false s.data)

/-- Numeric value of a hexadecimal digit character, none otherwise. -/
def hexVal (c : Char) : Option Nat :=
  match digitVal c with
  | some d => some d
  | none =>
    match c with
    | 'a' => some 10 | 'b' => some 11 | 'c' => some 12
    | 'd' => some 13 | 'e' => some 14 | 'f' => some 15
    | 'A' => some 10 | 'B' => some 11 | 'C' => some 12
    | 'D' => some 13 | 'E' => some 14 | 'F' => some 15
    | _ => none

/-- Model of urllib.parse.unquote on its ASCII fragment: a percent sign
followed by two hexadecimal digits becomes the character of that byte
value, a malformed escape is kept verbatim.  Multi-byte UTF-8 percent
sequences are outside the model, as documented in the header.  The fuel
is the text length, which bounds the number of steps (each step consumes
at least one character), so it never runs out. -/
def unquoteAux : Nat → List Char → List Char
  | 0, s => s
  | _ + 1, [] => []
  | fuel + 1, c :: rest =>
    if c = '%' then
      match rest with
      | a :: b :: rest2 =>
        match hexVal a, hexVal b with
        | some x, some y => Char.ofNat (16 * x + y) :: unquoteAux fuel rest2
        | _, _ => '%' :: unquoteAux fuel rest
      | _ => '%' :: unquoteAux fuel rest
    else c :: unquoteAux fuel rest

/-- Percent-decoding of a character list, with the fuel filled in. -/
def unquoteChars (l : List Char) : List Char := unquoteAux l.length l

/-- Model of _decode_config_text: percent-decode the text. -/
def decode_config_text (s : String) : String :=
  String.mk (unquoteChars s.data)

/-- The physical lines a MULTILINE-anchored pattern is matched against:
pieces between newline characters, the newlines themselves dropped. -/
def reLines (t : List Char) : List (List Char) := splitOnCharAux '\n' t []

/-- First successful application of a line matcher over the lines of a
text, modelling pattern.search for a pattern anchored by caret and
dollar under re.MULTILINE: the earliest matching line wins. -/
def firstLineMatch {α : Type} (f : List Char → Option α) :
    List (List Char) → Option α
  | [] => none
  | l :: ls =>
    match f l with
    | some g => some g
    | none => firstLineMatch f ls

/-- Consume a literal case-insensitively; some rest on success. -/
def dropLitCI (lit s : List Char) : Option (List Char) :=
  if isPrefixCI lit s then some (s.drop lit.length) else none

/-- Consume a literal case-sensitively; some rest on success. -/
def dropLit (lit s : List Char) : Option (List Char) :=
  if listStartsWith lit s then some (s.drop lit.length) else none

/-- Tail pattern of the anchored line recognizers (whitespace-star, lazy
dot-plus group, whitespace-star, dollar), applied to the rest of a line.
An empty rest fails, because the lazy group needs a character.  On a
whitespace-only rest the greedy leading whitespace-star backtracks one
character and the group captures that last whitespace character (its
strip is then empty).  Otherwise the group runs from the first to the
last non-whitespace character, i.e. it is the stripped rest. -/
def lazyTailGroup (r : List Char) : Option (List Char) :=
  if r.isEmpty then none
  else if r.all pyIsSpace then some (r.drop (r.length - 1))
  else some (pyStripChars r)

/-- Tail pattern whitespace-plus then the lazy group of lazyTailGroup:
identical except that at least one leading whitespace character is
required (the APP_NAME_VISIBLE_RE tail after the two hashes). -/
def wsThenLazyTailGroup (r : List Char) : Option (List Char) :=
  match r with
  | [] => none
  | c :: rest =>
    if pyIsSpace c then
      if (c :: rest).all pyIsSpace then some ((c :: rest).drop rest.length)
      else some (pyStripChars (c :: rest))
    else none

/-- Optional hash of the visible-line patterns: consume one leading hash
if present.  For the patterns using this helper the continuation cannot
match a hash, so the greedy choice never needs to backtrack. -/
def dropOptHash (s : List Char) : List Char :=
  match s with
  | '#' :: rest => rest
  | _ => s

/-- Model of OCI_VISIBLE_RE on one line: optional leading whitespace, the
literal "OCI image:" case-insensitively, then the standard lazy tail. -/
def ociVisibleLine (l : List Char) : Option (List Char) :=
  match dropLitCI "OCI image:".data (l.dropWhile pyIsSpace) with
  | some r => lazyTailGroup r
  | none => none

/-- Model of HOSTNAME_RE on one line: the literal "hostname:" at the very
start of the line, case-sensitively (this pattern alone carries no
re.IGNORECASE and allows no leading whitespace), then the lazy tail. -/
def hostnameLine (l : List Char) : Option (List Char) :=
  match dropLit "hostname:".data l with
  | some r => lazyTailGroup r
  | none => none

/-- Model of APP_ID_VISIBLE_RE on one line: optional whitespace, optional
hash, whitespace, "Application", at least one whitespace, "ID",
whitespace, a colon, then the lazy tail; all letters case-insensitive.
The greedy whitespace-plus between the two words is deterministic here
because neither side of it can match the other's characters. -/
def appIdVisibleLine (l : List Char) : Option (List Char) :=
  let t := dropOptHash (l.dropWhile pyIsSpace)
  match dropLitCI "Application".data (t.dropWhile pyIsSpace) with
  | some r =>
    match r with
    | c :: _ =>
      if pyIsSpace c then
        match dropLitCI "ID".data (r.dropWhile pyIsSpace) with
        | some r2 =>
          match dropLit ":".data (r2.dropWhile pyIsSpace) with
          | some r3 => lazyTailGroup r3
          | none => none
        | none => none
      else none
    | [] => none
  | none => none

/-- Model of APP_NAME_VISIBLE_RE on one line: optional whitespace,
optional hash, whitespace, two hashes, then at least one whitespace and
the lazy tail.  The optional hash genuinely backtracks here: on a line
of two hashes the greedy choice consumes the first hash and fails, and
the empty alternative succeeds, so both alternatives are tried in the
greedy order. -/
def appNameVisibleLine (l : List Char) : Option (List Char) :=
  let s := l.dropWhile pyIsSpace
  let viaHash : Option (List Char) :=
    match s with
    | '#' :: rest =>
      match dropLit "##".data (rest.dropWhile pyIsSpace) with
      | some r => wsThenLazyTailGroup r
      | none => none
    | _ => none
  match viaHash with
  | some g => some g
  | none =>
    match dropLit "##".data s with
    | some r => wsThenLazyTailGroup r
    | none => none

/-- Model of VERSION_VISIBLE_RE on one line: optional whitespace,
optional hash, whitespace, "Version" case-insensitively, whitespace, a
colon, then the lazy tail. -/
def versionVisibleLine (l : List Char) : Option (List Char) :=
  let t := dropOptHash (l.dropWhile pyIsSpace)
  match dropLitCI "Version".data (t.dropWhile pyIsSpace) with
  | some r =>
    match dropLit ":".data (r.dropWhile pyIsSpace) with
    | some r2 => lazyTailGroup r2
    | none => none
  | none => none

/-- The lazy group of the hidden-marker patterns: grow the capture one
non-newline character at a time (the dot class excludes the newline) and
stop as soon as the remaining text is whitespace followed by the arrow
"-->" (that whitespace-star is deterministic because no whitespace
character can begin the arrow).  Returns the capture together with the
text after the arrow, where re.findall resumes. -/
def markerCapAux : List Char → List Char → Option (List Char × List Char)
  | _, [] => none
  | acc, c :: rest =>
    if c = '\n' then none
    else if listStartsWith "-->".data (rest.dropWhile pyIsSpace) then
      some (acc ++ [c], (rest.dropWhile pyIsSpace).drop 3)
    else markerCapAux (acc ++ [c]) rest

/-- Backtracking loop of the greedy whitespace-plus in front of the lazy
marker group: the extent k runs from the whole leading whitespace run
down to one character, and for each extent the lazy group is retried
from scratch, exactly as the engine backtracks. -/
def markerRestAux : Nat → List Char → Option (List Char × List Char)
  | 0, _ => none
  | k + 1, s =>
    match markerCapAux [] (s.drop (k + 1)) with
    | some g => some g
    | none => markerRestAux k s

/-- Tail of the hidden-marker patterns after the tag: whitespace-plus,
the lazy group, whitespace-star, the arrow. -/
def markerRest (s : List Char) : Option (List Char × List Char) :=
  markerRestAux (s.takeWhile pyIsSpace).length s

/-- Model of re.search for a hidden-marker pattern (IGNORECASE, not
anchored): scan for the leftmost position where the case-insensitive tag
matches and the rest of the pattern succeeds; on a position where only
the tag matches, scanning moves on by one character, as the engine does.
The group is returned in its original case. -/
def markerSearchAux : List Char → List Char → Option (List Char)
  | _, [] => none
  | tag, c :: rest =>
    if isPrefixCI tag (c :: rest) then
      match markerRest ((c :: rest).drop tag.length) with
      | some g => some g.1
      | none => markerSearchAux tag rest
    else markerSearchAux tag rest

/-- The tag of the hidden-marker pattern for one key. -/
def markerTag (key : String) : List Char :=
  "oci-lxc-deployer:".data ++ key.data

/-- Model of re.findall for a hidden-marker pattern: non-overlapping
matches collected left to right, scanning resuming after each arrow.
The fuel is the text length, which bounds the number of scan steps, so
it never runs out. -/
def markerFindAllAux (tag : List Char) : Nat → List Char → List (List Char)
  | 0, _ => []
  | _ + 1, [] => []
  | fuel + 1, c :: rest =>
    if isPrefixCI tag (c :: rest) then
      match markerRest ((c :: rest).drop tag.length) with
      | some (g, rem) => g :: markerFindAllAux tag fuel rem
      | none => markerFindAllAux tag fuel rest
    else markerFindAllAux tag fuel rest

/-- Model of _extract_from_patterns: the patterns are tried in order and
the first whose match has a non-empty stripped group wins.  Only the
first match of each pattern is consulted: a match whose group strips to
the empty string moves on to the next pattern, not to a later
occurrence. -/
def extractFromPatterns :
    List Char → List (List Char → Option (List Char)) → Option String
  | _, [] => none
  | text, p :: ps =>
    match p text with
    | some g =>
      let v := pyStripChars g
      if v.isEmpty then extractFromPatterns text ps else some (String.mk v)
    | none => extractFromPatterns text ps

/-- A hidden-marker pattern as used in a pattern list. -/
def markerPat (key : String) (t : List Char) : Option (List Char) :=
  markerSearchAux (markerTag key) t

/-- A caret/dollar-anchored MULTILINE pattern as used in a pattern
list. -/
def visiblePat (f : List Char → Option (List Char)) (t : List Char) :
    Option (List Char) :=
  firstLineMatch f (reLines t)

/-- Model of _extract_all_matches for the addon marker: all matches,
stripped, the ones stripping to the empty string dropped. -/
def extractAllMatches (t : List Char) (key : String) : List String :=
  ((markerFindAllAux (markerTag key) t.length t).map pyStripChars).filterMap
    (fun v => if v.isEmpty then none else some (String.mk v))

/-- Order-preserving deduplication with an explicit seen list, modelling
the seen-set loop that combines the decoded and normalized addon
matches. -/
def dedupKeepFirst : List String → List String → List String
  | _, [] => []
  | seen, a :: rest =>
    if seen.contains a then dedupKeepFirst seen rest
    else a :: dedupKeepFirst (seen ++ [a]) rest

/-- The IdMapping dataclass of the parser library. -/
structure IdMapping where
  type : String
  container_start : Int
  host_start : Int
  range_size : Int
deriving DecidableEq, Repr

/-- The MountPoint dataclass of the parser library. -/
structure MountPoint where
  index : Int
  source : String
  target : String
  options : Option String
deriving DecidableEq, Repr

/-- Field pattern whitespace-plus then a digit-plus group: at least one
whitespace character, then a maximal non-empty digit run; the greedy
whitespace-plus is deterministic because a digit is not whitespace and
vice versa.  Returns the parsed group and the rest. -/
def wsNatField (r : List Char) : Option (Nat × List Char) :=
  match r with
  | c :: _ =>
    if pyIsSpace c then
      let r1 := r.dropWhile pyIsSpace
      let ds := r1.takeWhile (fun d => (digitVal d).isSome)
      match parseNatChars ds with
      | some n => some (n, r1.drop ds.length)
      | none => none
    else none
  | [] => none

/-- Model of IDMAP_RE on one line: the literal "lxc.idmap:", optional
whitespace, the kind letter u or g, three whitespace-separated decimal
fields, optional trailing whitespace, end of line. -/
def idmapLineParse (l : List Char) : Option (Char × Nat × Nat × Nat) :=
  match dropLit "lxc.idmap:".data l with
  | none => none
  | some r =>
    match r.dropWhile pyIsSpace with
    | k :: r1 =>
      if k = 'u' || k = 'g' then
        match wsNatField r1 with
        | some (a, r2) =>
          match wsNatField r2 with
          | some (b, r3) =>
            match wsNatField r3 with
            | some (c, r4) =>
              if (r4.dropWhile pyIsSpace).isEmpty then some (k, a, b, c)
              else none
            | none => none
          | none => none
        | none => none
      else none
    | [] => none

/-- Model of parse_id_mappings: every matching line of the text, in text
order (a match of IDMAP_RE spans one whole line, so the non-overlapping
finditer matches are exactly the matching lines). -/
def parse_id_mappings (conf_text : String) : List IdMapping :=
  (reLines conf_text.data).filterMap (fun l =>
    (idmapLineParse l).map (fun r =>
      { type := String.mk [r.1], container_start := (r.2.1 : Int),
        host_start := (r.2.2.1 : Int), range_size := (r.2.2.2 : Int) }))

/-- The lazy source group of MOUNTPOINT_RE: it grows one character at a
time and stops at the first ",mp=" occurrence that is followed by at
least one character (the lazy target group needs one; if nothing
follows, the engine grows the source past this occurrence).  Returns the
group and the text after the ",mp=". -/
def mpSourceAux : List Char → List Char → Option (List Char × List Char)
  | _, [] => none
  | acc, c :: rest =>
    if listStartsWith ",mp=".data (c :: rest) && !acc.isEmpty
        && !((c :: rest).drop 4).isEmpty then
      some (acc, (c :: rest).drop 4)
    else mpSourceAux (acc ++ [c]) rest

/-- Backtracking loop of the greedy whitespace-star before the source
group of MOUNTPOINT_RE, from the whole leading whitespace run down to
zero characters (this matters when ",mp=" begins right after the
whitespace: the star then leaves its last character to the group). -/
def mpTryJs : Nat → List Char → Option (List Char × List Char)
  | 0, r => mpSourceAux [] r
  | j + 1, r =>
    match mpSourceAux [] (r.drop (j + 1)) with
    | some p => some p
    | none => mpTryJs j r

/-- The lazy target group of MOUNTPOINT_RE: it grows one character at a
time and stops at the first comma (the optional option group then runs
to the end of the line) or at the end of the line, whichever comes
first. -/
def mpTargetAux : List Char → List Char → Option (List Char × Option (List Char))
  | _, [] => none
  | acc, c :: rest =>
    match rest with
    | ',' :: opts => some (acc ++ [c], some opts)
    | [] => some (acc ++ [c], none)
    | _ => mpTargetAux (acc ++ [c]) rest

/-- Model of MOUNTPOINT_RE on one line, returning the parsed MountPoint;
an empty option group is turned into none, as the truthiness test on
match.group(4) does. -/
def mountpointLineParse (l : List Char) : Option MountPoint :=
  match dropLit "mp".data l with
  | none => none
  | some r =>
    let ds := r.takeWhile (fun c => (digitVal c).isSome)
    match parseNatChars ds with
    | none => none
    | some idx =>
      match r.drop ds.length with
      | ':' :: r2 =>
        match mpTryJs (r2.takeWhile pyIsSpace).length r2 with
        | some (src, r3) =>
          match mpTargetAux [] r3 with
          | some (tgt, opts) =>
            some { index := (idx : Int), source := String.mk src,
                   target := String.mk tgt,
                   options :=
                     match opts with
                     | some o =>
                       if o.isEmpty then none else some (String.mk o)
                     | none => none }
          | none => none
        | none => none
      | _ => none

/-- Stable insertion into a list sorted by mount-point index; an equal
index goes after the existing entries, as Python's stable sort does. -/
def insertByIndex (x : MountPoint) : List MountPoint → List MountPoint
  | [] => [x]
  | y :: ys => if x.index < y.index then x :: y :: ys else y :: insertByIndex x ys

/-- Model of parse_mount_points: the matching lines in text order,
sorted by index with a stable sort. -/
def parse_mount_points (conf_text : String) : List MountPoint :=
  ((reLines conf_text.data).filterMap mountpointLineParse).foldl
    (fun acc x => insertByIndex x acc) []

/-- Model of MEMORY_RE / CORES_RE on one line: the given literal key
(case-sensitively), optional whitespace, a digit run, optional trailing
whitespace, end of line. -/
def keyNatLineParse (key l : List Char) : Option Nat :=
  match dropLit key l with
  | none => none
  | some r =>
    let r1 := r.dropWhile pyIsSpace
    let ds := r1.takeWhile (fun d => (digitVal d).isSome)
    match parseNatChars ds with
    | none => none
    | some n =>
      if ((r1.drop ds.length).dropWhile pyIsSpace).isEmpty then some n
      else none

/-- Body of ROOTFS_RE after the leading whitespace: a non-empty greedy
run of non-colon characters, a colon, a non-empty greedy run of
non-comma characters; both runs are deterministic (each stops exactly at
its excluded character, and the continuation after the second can match
the empty text).  Returns the two groups and the rest. -/
def rootfsBodyParse (r : List Char) : Option (List Char × List Char × List Char) :=
  let g1 := r.takeWhile (fun c => decide (¬ c = ':'))
  if g1.isEmpty then none
  else
    match r.drop g1.length with
    | ':' :: r2 =>
      let g2 := r2.takeWhile (fun c => decide (¬ c = ','))
      if g2.isEmpty then none else some (g1, g2, r2.drop g2.length)
    | _ => none

/-- Backtracking loop of the greedy whitespace-star before the storage
group of ROOTFS_RE (this matters when a colon begins right after the
whitespace). -/
def rootfsTryJs : Nat → List Char → Option (List Char × List Char × List Char)
  | 0, r => rootfsBodyParse r
  | j + 1, r =>
    match rootfsBodyParse (r.drop (j + 1)) with
    | some p => some p
    | none => rootfsTryJs j r

/-- Model of ROOTFS_RE on one line together with the size handling of
parse_lxc_config: the storage group, and the disk size rendered from the
optional ",size=" group with its optional G/M/K unit defaulting to G.
The pattern carries no dollar anchor, so trailing text is ignored. -/
def rootfsLineParse (l : List Char) : Option (List Char × Option (List Char)) :=
  match dropLit "rootfs:".data l with
  | none => none
  | some r =>
    match rootfsTryJs (r.takeWhile pyIsSpace).length r with
    | none => none
    | some (g1, _, r3) =>
      let sz : Option (List Char) :=
        match dropLit ",size=".data r3 with
        | none => none
        | some r4 =>
          let ds := r4.takeWhile (fun d => (digitVal d).isSome)
          if ds.isEmpty then none
          else
            let unit : List Char :=
              match r4.drop ds.length with
              | u :: _ => if u = 'G' || u = 'M' || u = 'K' then [u] else ['G']
              | [] => ['G']
            some (ds ++ unit)
      some (g1, sz)

/-- Scanner of the NET_BRIDGE_RE body: the greedy dot-star selects the
last "bridge=" occurrence whose value has at least one character that is
neither a comma nor whitespace; the value run itself is greedy and
deterministic. -/
def bridgeScanAux : Option (List Char) → List Char → Option (List Char)
  | best, [] => best
  | best, c :: rest =>
    if listStartsWith "bridge=".data (c :: rest) then
      let v := ((c :: rest).drop 7).takeWhile
        (fun d => decide (¬ (d = ',' ∨ pyIsSpace d = true)))
      if v.isEmpty then bridgeScanAux best rest else bridgeScanAux (some v) rest
    else bridgeScanAux best rest

/-- Model of NET_BRIDGE_RE on one line: the literal "net", a digit run, a
colon, then the bridge scanner. -/
def netBridgeLineParse (l : List Char) : Option (List Char) :=
  match dropLit "net".data l with
  | none => none
  | some r =>
    let ds := r.takeWhile (fun d => (digitVal d).isSome)
    if ds.isEmpty then none
    else
      match r.drop ds.length with
      | ':' :: r2 => bridgeScanAux none r2
      | _ => none

/-- The LxcConfig dataclass of the parser library. -/
structure LxcConfig where
  raw_text : String
  decoded_text : String
  hostname : Option String
  is_managed : Bool
  oci_image : Option String
  application_id : Option String
  application_name : Option String
  version : Option String
  addons : List String
  username : Option String
  uid : Option String
  gid : Option String
  id_mappings : List IdMapping
  mount_points : List MountPoint
  memory : Option Int
  cores : Option Int
  rootfs_storage : Option String
  disk_size : Option String
  bridge : Option String
deriving DecidableEq, Repr

/-- The literal tag of MANAGED_RE. -/
def managedTag : List Char := "oci-lxc-deployer:managed".data

/-- Model of parse_lxc_config: normalize and decode the text, then fill
every field exactly as the source does — the extractor fields try the
decoded text first and fall back to the normalized text, the hostname
and the resource fields are read from the normalized text only, and the
addon lists of both texts are concatenated and deduplicated keeping the
first occurrence. -/
def parse_lxc_config (conf_text : String) : LxcConfig :=
  let normalized := normalize_config_text conf_text
  let decoded := decode_config_text normalized
  let n := normalized.data
  let d := decoded.data
  let extract2 := fun (pats : List (List Char → Option (List Char))) =>
    match extractFromPatterns d pats with
    | some v => some v
    | none => extractFromPatterns n pats
  { raw_text := conf_text
    decoded_text := decoded
    hostname :=
      match firstLineMatch hostnameLine (reLines n) with
      | some g =>
        let v := pyStripChars g
        if v.isEmpty then none else some (String.mk v)
      | none => none
    is_managed := searchSubCI managedTag n || searchSubCI managedTag d
    oci_image := extract2 [markerPat "oci-image", visiblePat ociVisibleLine]
    application_id :=
      extract2 [markerPat "application-id", visiblePat appIdVisibleLine]
    application_name :=
      extract2 [markerPat "application-name", visiblePat appNameVisibleLine]
    version := extract2 [visiblePat versionVisibleLine]
    addons :=
      dedupKeepFirst [] (extractAllMatches d "addon" ++ extractAllMatches n "addon")
    username := extract2 [markerPat "username"]
    uid := extract2 [markerPat "uid"]
    gid := extract2 [markerPat "gid"]
    id_mappings := parse_id_mappings normalized
    mount_points := parse_mount_points normalized
    memory :=
      (firstLineMatch (keyNatLineParse "memory:".data) (reLines n)).map
        (fun k => (k : Int))
    cores :=
      (firstLineMatch (keyNatLineParse "cores:".data) (reLines n)).map
        (fun k => (k : Int))
    rootfs_storage :=
      (firstLineMatch rootfsLineParse (reLines n)).map (fun p => String.mk p.1)
    disk_size :=
      match firstLineMatch rootfsLineParse (reLines n) with
      | some (_, some sz) => some (String.mk sz)
      | _ => none
    bridge := (firstLineMatch netBridgeLineParse (reLines n)).map String.mk }

/-- Model of is_managed_container: the quick managed check over the
normalized and the decoded text. -/
def is_managed_container (conf_text : String) : Bool :=
  let normalized := normalize_config_text conf_text
  let decoded := decode_config_text normalized
  searchSubCI managedTag normalized.data || searchSubCI managedTag decoded.data

/-- Model of build_notes (host-write-lxc-notes.py): the description text
written for a container.  The module-level VMID template variable is
passed as the vm_id argument; Python's empty-string falsiness governs
every conditional line. -/
def build_notes (include_icon : Bool) (oci_image_visible app_id app_name
    version deployer_url ve_context hostname icon_base64 icon_mime_type
    username uid gid template_path vm_id : String) : String :=
  let header_name :=
    if app_name ≠ "" then app_name
    else if app_id ≠ "" then app_id
    else "Container"
  let lines : List String :=
    ["<!-- oci-lxc-deployer:managed -->"]
    ++ (if oci_image_visible ≠ "" then
          ["<!-- oci-lxc-deployer:oci-image " ++ oci_image_visible ++ " -->"]
        else [])
    ++ (if app_id ≠ "" then
          ["<!-- oci-lxc-deployer:application-id " ++ app_id ++ " -->"]
        else [])
    ++ (if app_name ≠ "" then
          ["<!-- oci-lxc-deployer:application-name " ++ app_name ++ " -->"]
        else [])
    ++ (if version ≠ "" then
          ["<!-- oci-lxc-deployer:version " ++ version ++ " -->"]
        else [])
    ++ (if deployer_url ≠ "" ∧ ve_context ≠ "" then
          ["<!-- oci-lxc-deployer:log-url " ++ deployer_url ++ "/logs/"
            ++ vm_id ++ "/" ++ ve_context ++ " -->"]
        else [])
    ++ (if icon_base64 ≠ "" ∧ icon_mime_type ≠ "" then
          ["<!-- oci-lxc-deployer:icon-url data:" ++ icon_mime_type
            ++ ";base64,... -->"]
        else [])
    ++ (if username ≠ "" then
          ["<!-- oci-lxc-deployer:username " ++ username ++ " -->"]
        else [])
    ++ (if uid ≠ "" then
          ["<!-- oci-lxc-deployer:uid " ++ uid ++ " -->"]
        else [])
    ++ (if gid ≠ "" then
          ["<!-- oci-lxc-deployer:gid " ++ gid ++ " -->"]
        else [])
    ++ ["# " ++ header_name, ""]
    ++ (if include_icon ∧ icon_base64 ≠ "" ∧ icon_mime_type ≠ "" then
          ["<img src=\"data:" ++ icon_mime_type ++ ";base64," ++ icon_base64
            ++ "\" width=\"16\" height=\"16\" alt=\""
            ++ (if app_name ≠ "" then app_name else app_id) ++ "\"/>", ""]
        else [])
    ++ (if deployer_url ≠ "" then
          ["Managed by [oci-lxc-deployer](" ++ deployer_url ++ "/)."]
        else ["Managed by **oci-lxc-deployer**."])
    ++ (if app_id ≠ "" ∧ app_id ≠ app_name then
          ["", "Application ID: " ++ app_id]
        else [])
    ++ (if version ≠ "" then ["", "Version: " ++ version] else [])
    ++ (if oci_image_visible ≠ "" then ["", "OCI image: " ++ oci_image_visible]
        else if template_path ≠ "" then
          ["", "LXC template: " ++ template_path]
        else [])
    ++ (if hostname ≠ "" then
          ["", "Log file: /var/log/lxc/" ++ hostname ++ "-" ++ vm_id ++ ".log"]
        else [])
    ++ (if deployer_url ≠ "" ∧ ve_context ≠ "" then
          ["", "## Links", "- [Console Logs](" ++ deployer_url ++ "/logs/"
            ++ vm_id ++ "/" ++ ve_context ++ ")"]
        else [])
  String.intercalate "\n" lines

/-! ### Lemmas: decimal rendering and parsing -/

theorem digitVal_digitChar {d : Nat} (h : d < 10) :
    digitVal (digitChar d) = some d := by
  interval_cases d <;> rfl

/-- Every character produced by digitChar is one of the ten digits. -/
theorem digitChar_mem (d : Nat) :
    digitChar d ∈ (['0','1','2','3','4','5','6','7','8','9'] : List Char) := by
  rcases d with _|_|_|_|_|_|_|_|_|d <;> simp [digitChar]

theorem natToCharsAux_stable :
    ∀ f₁ f₂ n, n < f₁ → n < f₂ → natToCharsAux f₁ n = natToCharsAux f₂ n := by
  intro f₁
  induction f₁ with
  | zero => intro f₂ n h; omega
  | succ f₁ ih =>
    intro f₂ n h₁ h₂
    cases f₂ with
    | zero => omega
    | succ f₂ =>
      simp only [natToCharsAux]
      by_cases hn : n < 10
      · simp [hn]
      · simp only [hn, if_false]
        have hd : n / 10 < n := Nat.div_lt_self (by omega) (by omega)
        rw [ih f₂ (n / 10) (by omega) (by omega)]

theorem natToChars_small {n : Nat} (h : n < 10) : natToChars n = [digitChar n] := by
  simp [natToChars, natToCharsAux, h]

theorem natToChars_step {n : Nat} (h : 10 ≤ n) :
    natToChars n = natToChars (n / 10) ++ [digitChar (n % 10)] := by
  have hd : n / 10 < n := Nat.div_lt_self (by omega) (by omega)
  rw [natToChars,
    show natToCharsAux (n + 1) n = natToCharsAux n (n / 10) ++ [digitChar (n % 10)] from by
      simp [natToCharsAux, Nat.not_lt.mpr h],
    natToCharsAux_stable n (n / 10 + 1) (n / 10) (by omega) (by omega)]
  rfl

theorem natToChars_ne_nil (n : Nat) : natToChars n ≠ [] := by
  by_cases h : n < 10
  · rw [natToChars_small h]; simp
  · rw [natToChars_step (by omega)]; simp

/-- Every character of a decimal rendering is a digit. -/
theorem natToChars_digits (n : Nat) :
    ∀ c ∈ natToChars n, c ∈ (['0','1','2','3','4','5','6','7','8','9'] : List Char) := by
  induction n using Nat.strong_induction_on with
  | _ n ih =>
    by_cases h : n < 10
    · rw [natToChars_small h]
      intro c hc
      simp only [List.mem_singleton] at hc
      subst hc; exact digitChar_mem n
    · rw [natToChars_step (by omega)]
      intro c hc
      rcases List.mem_append.mp hc with h1 | h2
      · exact ih (n / 10) (Nat.div_lt_self (by omega) (by omega)) c h1
      · simp only [List.mem_singleton] at h2
        subst h2; exact digitChar_mem (n % 10)

theorem parseDigitsAux_append (l₁ l₂ : List Char) :
    ∀ acc, parseDigitsAux (l₁ ++ l₂) acc =
      match parseDigitsAux l₁ acc with
      | some a => parseDigitsAux l₂ a
      | none => none := by
  induction l₁ with
  | nil => intro acc; simp [parseDigitsAux]
  | cons c cs ih =>
    intro acc
    simp only [List.cons_append, parseDigitsAux]
    cases digitVal c with
    | none => simp
    | some d => simpa using ih (acc * 10 + d)

theorem parseDigitsAux_natToChars (n : Nat) :
    ∀ acc, parseDigitsAux (natToChars n) acc
      = some (acc * 10 ^ (natToChars n).length + n) := by
  induction n using Nat.strong_induction_on with
  | _ n ih =>
    intro acc
    by_cases h : n < 10
    · rw [natToChars_small h]
      simp [parseDigitsAux, digitVal_digitChar h]
    · rw [natToChars_step (by omega)]
      rw [parseDigitsAux_append]
      have hd : n / 10 < n := Nat.div_lt_self (by omega) (by omega)
      rw [ih (n / 10) hd acc]
      simp only [parseDigitsAux, digitVal_digitChar (Nat.mod_lt n (by omega))]
      congr 1
      rw [List.length_append, List.length_singleton, pow_succ, Nat.add_mul,
        Nat.add_assoc, Nat.mul_assoc]
      omega

theorem parseNatChars_natToChars (n : Nat) : parseNatChars (natToChars n) = some n := by
  rcases hl : natToChars n with _ | ⟨c, cs⟩
  · exact absurd hl (natToChars_ne_nil n)
  · have := parseDigitsAux_natToChars n 0
    rw [hl] at this
    simpa [parseNatChars] using this

/-- Round trip: Python int(str(i)) recovers a non-negative integer. -/
theorem pyIntChars_intToChars {i : Int} (h : 0 ≤ i) :
    pyIntChars (intToChars i) = some i := by
  have hneg : ¬ i < 0 := by omega
  rw [intToChars, if_neg hneg]
  rcases hl : natToChars i.natAbs with _ | ⟨c, cs⟩
  · exact absurd hl (natToChars_ne_nil _)
  · have hdig : c ∈ (['0','1','2','3','4','5','6','7','8','9'] : List Char) := by
      apply natToChars_digits i.natAbs
      rw [hl]; simp
    have hc1 : ¬ c = '-' := by
      intro hc; subst hc; revert hdig; decide
    have hc2 : ¬ c = '+' := by
      intro hc; subst hc; revert hdig; decide
    have := parseNatChars_natToChars i.natAbs
    rw [hl] at this
    simp [pyIntChars, hc1, hc2, this, Int.natAbs_of_nonneg h]

/-! ### Lemmas: sortedDedup -/

theorem mem_insertSortedDedup {a x : Int} {l : List Int} :
    a ∈ insertSortedDedup x l ↔ a = x ∨ a ∈ l := by
  induction l with
  | nil => simp [insertSortedDedup]
  | cons y ys ih =>
    by_cases h1 : x < y
    · simp [insertSortedDedup, h1]
    · by_cases h2 : x = y
      · subst h2
        simp only [insertSortedDedup, h1, if_false, if_pos rfl]
        constructor
        · intro h; exact Or.inr h
        · rintro (rfl | h) <;> simp_all
      · simp only [insertSortedDedup, h1, h2, if_false, List.mem_cons, ih]
        tauto

theorem sorted_insertSortedDedup {x : Int} {l : List Int}
    (h : l.Sorted (· < ·)) : (insertSortedDedup x l).Sorted (· < ·) := by
  induction l with
  | nil => simp [insertSortedDedup]
  | cons y ys ih =>
    rw [List.sorted_cons] at h
    by_cases h1 : x < y
    · rw [insertSortedDedup, if_pos h1, List.sorted_cons]
      refine ⟨?_, by rw [List.sorted_cons]; exact h⟩
      intro b hb
      rcases List.mem_cons.mp hb with rfl | hb
      · exact h1
      · exact lt_trans h1 (h.1 b hb)
    · by_cases h2 : x = y
      · subst h2
        rw [insertSortedDedup, if_neg h1, if_pos rfl, List.sorted_cons]
        exact h
      · rw [insertSortedDedup, if_neg h1, if_neg h2, List.sorted_cons]
        refine ⟨?_, ih h.2⟩
        intro b hb
        rcases mem_insertSortedDedup.mp hb with rfl | hb
        · omega
        · exact h.1 b hb

theorem sortedDedup_sorted (l : List Int) : (sortedDedup l).Sorted (· < ·) := by
  induction l with
  | nil => simp [sortedDedup]
  | cons x xs ih => exact sorted_insertSortedDedup ih

theorem mem_sortedDedup {a : Int} {l : List Int} : a ∈ sortedDedup l ↔ a ∈ l := by
  induction l with
  | nil => simp [sortedDedup]
  | cons x xs ih =>
    show a ∈ insertSortedDedup x (sortedDedup xs) ↔ _
    rw [mem_insertSortedDedup, ih, List.mem_cons]

theorem sortedDedup_ne_nil {l : List Int} (h : l ≠ []) : sortedDedup l ≠ [] := by
  rcases l with _ | ⟨x, xs⟩
  · simp at h
  · intro hcon
    have : x ∈ sortedDedup (x :: xs) := mem_sortedDedup.mpr (by simp)
    rw [hcon] at this
    simp at this

/-! ### Lemmas: the allocator loop -/

theorem calcAux_ne_nil (p : Int) (rest : List Int) (cur off : Int) :
    calcIdmapTuplesAux (p :: rest) cur off ≠ [] := by
  rw [calcIdmapTuplesAux]
  by_cases h : cur < p <;> simp [h]

theorem calcAux_key_lb (ids : List Int) :
    ∀ cur off, ids.Sorted (· < ·) → (∀ p ∈ ids, cur ≤ p) →
      ∀ t ∈ calcIdmapTuplesAux ids cur off, cur ≤ t.1 := by
  induction ids with
  | nil =>
    intro cur off _ _ t ht
    rw [calcIdmapTuplesAux] at ht
    by_cases h : cur ≤ 65535
    · rw [if_pos h] at ht
      simp only [List.mem_singleton] at ht
      subst ht; exact le_refl cur
    · rw [if_neg h] at ht; simp at ht
  | cons p rest ih =>
    intro cur off hsort hlo t ht
    obtain ⟨hps, hsr⟩ := List.sorted_cons.mp hsort
    have hcp : cur ≤ p := hlo p (List.mem_cons_self _ _)
    rw [calcIdmapTuplesAux] at ht
    rcases List.mem_append.mp ht with h1 | h2
    · by_cases h : cur < p
      · rw [if_pos h] at h1
        simp only [List.mem_singleton] at h1
        subst h1; exact le_refl cur
      · rw [if_neg h] at h1; simp at h1
    · rcases List.mem_cons.mp h2 with rfl | h3
      · exact hcp
      · have := ih (p + 1) (if cur < p then off + (p - cur) else off) hsr
          (fun q hq => by have := hps q hq; omega) t h3
        omega

theorem calcAux_keySorted (ids : List Int) :
    ∀ cur off, ids.Sorted (· < ·) → (∀ p ∈ ids, cur ≤ p) →
      (calcIdmapTuplesAux ids cur off).Pairwise (fun a b => a.1 < b.1) := by
  induction ids with
  | nil =>
    intro cur off _ _
    rw [calcIdmapTuplesAux]
    by_cases h : cur ≤ 65535 <;> simp [h]
  | cons p rest ih =>
    intro cur off hsort hlo
    obtain ⟨hps, hsr⟩ := List.sorted_cons.mp hsort
    have hcp : cur ≤ p := hlo p (List.mem_cons_self _ _)
    have hlo' : ∀ q ∈ rest, p + 1 ≤ q := fun q hq => by have := hps q hq; omega
    have htail := ih (p + 1) (if cur < p then off + (p - cur) else off) hsr hlo'
    have hkey := calcAux_key_lb rest (p + 1)
      (if cur < p then off + (p - cur) else off) hsr hlo'
    rw [calcIdmapTuplesAux, List.pairwise_append]
    refine ⟨?_, ?_, ?_⟩
    · by_cases h : cur < p <;> simp [h]
    · rw [List.pairwise_cons]
      refine ⟨?_, htail⟩
      intro t ht
      have := hkey t ht
      omega
    · intro a ha b hb
      by_cases h : cur < p
      · rw [if_pos h] at ha
        simp only [List.mem_singleton] at ha
        subst ha
        rcases List.mem_cons.mp hb with rfl | hb3
        · simpa using h
        · have := hkey b hb3
          simp only
          omega
      · rw [if_neg h] at ha; simp at ha

theorem calcAux_fields (ids : List Int) :
    ∀ cur off, ids.Sorted (· < ·) →
      (∀ p ∈ ids, cur ≤ p ∧ p < 65536) → 0 ≤ cur → STANDARD_START ≤ off →
      ∀ t ∈ calcIdmapTuplesAux ids cur off,
        (0 ≤ t.1 ∧ t.1 ≤ 65535 ∧ 1 ≤ t.2.2 ∧ 0 ≤ t.2.1)
        ∧ ((t.2.1 = t.1 ∧ t.2.2 = 1 ∧ t.1 ∈ ids) ∨ STANDARD_START ≤ t.2.1) := by
  induction ids with
  | nil =>
    intro cur off _ _ hcur hoff t ht
    have hoff100 : (100000 : Int) ≤ off := hoff
    rw [calcIdmapTuplesAux] at ht
    by_cases h : cur ≤ 65535
    · rw [if_pos h] at ht
      simp only [List.mem_singleton] at ht
      subst ht
      refine ⟨⟨hcur, h, by dsimp only; omega, by dsimp only; omega⟩, Or.inr hoff⟩
    · rw [if_neg h] at ht; simp at ht
  | cons p rest ih =>
    intro cur off hsort hb hcur hoff t ht
    have hoff100 : (100000 : Int) ≤ off := hoff
    obtain ⟨hps, hsr⟩ := List.sorted_cons.mp hsort
    obtain ⟨hcp, hp65⟩ := hb p (List.mem_cons_self _ _)
    have hb' : ∀ q ∈ rest, p + 1 ≤ q ∧ q < 65536 := by
      intro q hq
      exact ⟨by have := hps q hq; omega, (hb q (List.mem_cons.mpr (Or.inr hq))).2⟩
    rw [calcIdmapTuplesAux] at ht
    rcases List.mem_append.mp ht with h1 | h2
    · by_cases h : cur < p
      · rw [if_pos h] at h1
        simp only [List.mem_singleton] at h1
        subst h1
        refine ⟨⟨hcur, by dsimp only; omega, by dsimp only; omega,
          by dsimp only; omega⟩, Or.inr hoff⟩
      · rw [if_neg h] at h1; simp at h1
    · rcases List.mem_cons.mp h2 with rfl | h3
      · exact ⟨⟨by dsimp only; omega, by dsimp only; omega, by dsimp only; omega,
          by dsimp only; omega⟩, Or.inl ⟨rfl, rfl, List.mem_cons_self _ _⟩⟩
      · have hoff' : STANDARD_START ≤ (if cur < p then off + (p - cur) else off) := by
          by_cases h : cur < p <;> simp only [h, if_true, if_false] <;> omega
        have := ih (p + 1) (if cur < p then off + (p - cur) else off) hsr hb'
          (by omega) hoff' t h3
        refine ⟨this.1, ?_⟩
        rcases this.2 with ⟨e1, e2, e3⟩ | hsh
        · exact Or.inl ⟨e1, e2, List.mem_cons.mpr (Or.inr e3)⟩
        · exact Or.inr hsh

theorem calcAux_countP (ids : List Int) :
    ∀ cur off (c : Int), ids.Sorted (· < ·) →
      (∀ p ∈ ids, cur ≤ p ∧ p < 65536) → cur ≤ 65536 →
      ((calcIdmapTuplesAux ids cur off).countP
          (fun t => decide (t.1 ≤ c ∧ c < t.1 + t.2.2)))
        = if cur ≤ c ∧ c < 65536 then 1 else 0 := by
  induction ids with
  | nil =>
    intro cur off c _ _ hcur
    rw [calcIdmapTuplesAux]
    by_cases h : cur ≤ 65535
    · rw [if_pos h]
      simp only [List.countP_cons, List.countP_nil, decide_eq_true_eq]
      split_ifs <;> omega
    · rw [if_neg h]
      simp only [List.countP_nil]
      split_ifs <;> omega
  | cons p rest ih =>
    intro cur off c hsort hb hcur
    obtain ⟨hps, hsr⟩ := List.sorted_cons.mp hsort
    obtain ⟨hcp, hp65⟩ := hb p (List.mem_cons_self _ _)
    have hb' : ∀ q ∈ rest, p + 1 ≤ q ∧ q < 65536 := by
      intro q hq
      exact ⟨by have := hps q hq; omega, (hb q (List.mem_cons.mpr (Or.inr hq))).2⟩
    rw [calcIdmapTuplesAux, List.countP_append, List.countP_cons,
      ih (p + 1) (if cur < p then off + (p - cur) else off) c hsr hb' (by omega)]
    by_cases h : cur < p
    · rw [if_pos h]
      simp only [List.countP_cons, List.countP_nil, decide_eq_true_eq]
      split_ifs <;> omega
    · rw [if_neg h]
      simp only [List.countP_nil, decide_eq_true_eq]
      split_ifs <;> omega

theorem calcAux_resolve (ids : List Int) :
    ∀ cur off (c : Int) (unpriv : Bool), ids.Sorted (· < ·) →
      (∀ p ∈ ids, cur ≤ p ∧ p < 65536) → cur ≤ c → c < 65536 →
      compute_host_id_for_container_id c (calcIdmapTuplesAux ids cur off) unpriv
        = if c ∈ ids then c
          else off + (c - cur) - (ids.countP (fun p => decide (p < c)) : Int) := by
  induction ids with
  | nil =>
    intro cur off c unpriv _ _ hc1 hc2
    rw [calcIdmapTuplesAux, if_pos (by omega : cur ≤ 65535)]
    rw [compute_host_id_for_container_id]
    rw [if_pos (by constructor <;> omega : cur ≤ c ∧ c < cur + (65536 - cur))]
    simp only [List.not_mem_nil, if_false, List.countP_nil, Nat.cast_zero]
    omega
  | cons p rest ih =>
    intro cur off c unpriv hsort hb hc1 hc2
    obtain ⟨hps, hsr⟩ := List.sorted_cons.mp hsort
    obtain ⟨hcp, hp65⟩ := hb p (List.mem_cons_self _ _)
    have hb' : ∀ q ∈ rest, p + 1 ≤ q ∧ q < 65536 := by
      intro q hq
      exact ⟨by have := hps q hq; omega, (hb q (List.mem_cons.mpr (Or.inr hq))).2⟩
    have hoffeq : (if cur < p then off + (p - cur) else off) = off + (p - cur) := by
      by_cases h : cur < p
      · rw [if_pos h]
      · rw [if_neg h]; omega
    rw [calcIdmapTuplesAux]
    by_cases hclt : c < p
    · -- c lies in the leading shift block
      have hcurp : cur < p := by omega
      rw [if_pos hcurp]
      simp only [List.cons_append, List.nil_append]
      rw [compute_host_id_for_container_id]
      rw [if_pos (by constructor <;> omega : cur ≤ c ∧ c < cur + (p - cur))]
      have hnot : ¬ c ∈ p :: rest := by
        intro hmem
        rcases List.mem_cons.mp hmem with rfl | hmem
        · omega
        · have := hb' c hmem; omega
      rw [if_neg hnot]
      have hcount : (p :: rest).countP (fun q => decide (q < c)) = 0 := by
        rw [List.countP_eq_zero]
        intro q hq
        rcases List.mem_cons.mp hq with rfl | hq
        · simpa using (by omega : ¬ q < c)
        · have := hb' q hq
          simpa using (by omega : ¬ q < c)
      rw [hcount]
      simp
    · by_cases hceq : c = p
      · -- c is the passthrough id itself
        subst hceq
        have h1 : compute_host_id_for_container_id c
            ((c, c, 1) :: calcIdmapTuplesAux rest (c + 1)
              (if cur < c then off + (c - cur) else off)) unpriv = c := by
          rw [compute_host_id_for_container_id]
          rw [if_pos (by constructor <;> omega : c ≤ c ∧ c < c + 1)]
          omega
        by_cases hcurp : cur < c
        · rw [if_pos hcurp]
          simp only [List.cons_append, List.nil_append]
          rw [compute_host_id_for_container_id]
          rw [if_neg (by omega : ¬ (cur ≤ c ∧ c < cur + (c - cur)))]
          rw [h1, if_pos (List.mem_cons_self _ _)]
        · rw [if_neg hcurp]
          simp only [List.nil_append]
          rw [h1, if_pos (List.mem_cons_self _ _)]
      · -- c lies beyond the passthrough id
        have hcgt : p < c := by omega
        have htail := ih (p + 1) (if cur < p then off + (p - cur) else off) c unpriv
          hsr hb' (by omega) hc2
        rw [hoffeq] at htail
        have hstep : compute_host_id_for_container_id c
            ((p, p, 1) :: calcIdmapTuplesAux rest (p + 1)
              (if cur < p then off + (p - cur) else off)) unpriv
            = compute_host_id_for_container_id c
              (calcIdmapTuplesAux rest (p + 1)
                (if cur < p then off + (p - cur) else off)) unpriv := by
          rw [compute_host_id_for_container_id]
          rw [if_neg (by omega : ¬ (p ≤ c ∧ c < p + 1))]
        have hmemiff : (c ∈ p :: rest) ↔ c ∈ rest := by
          rw [List.mem_cons]
          constructor
          · rintro (rfl | h) <;> [omega; exact h]
          · exact Or.inr
        have hcountc : ((p :: rest).countP (fun q => decide (q < c)) : Int)
            = (rest.countP (fun q => decide (q < c)) : Int) + 1 := by
          rw [List.countP_cons]
          simp only [decide_eq_true_eq, if_pos hcgt]
          push_cast
          ring
        by_cases hcurp : cur < p
        · rw [if_pos hcurp]
          simp only [List.cons_append, List.nil_append]
          rw [compute_host_id_for_container_id]
          rw [if_neg (by omega : ¬ (cur ≤ c ∧ c < cur + (p - cur)))]
          rw [hstep, hoffeq, htail]
          by_cases hmem : c ∈ rest
          · rw [if_pos hmem, if_pos (hmemiff.mpr hmem)]
          · rw [if_neg hmem, if_neg (fun h => hmem (hmemiff.mp h)), hcountc]
            omega
        · rw [if_neg hcurp]
          simp only [List.nil_append]
          rw [hstep, hoffeq, htail]
          by_cases hmem : c ∈ rest
          · rw [if_pos hmem, if_pos (hmemiff.mpr hmem)]
          · rw [if_neg hmem, if_neg (fun h => hmem (hmemiff.mp h)), hcountc]
            omega

theorem calcAux_offsetChain (ids : List Int) :
    ∀ cur off, ids.Sorted (· < ·) →
      (∀ p ∈ ids, cur ≤ p ∧ p < 65536) → STANDARD_START ≤ off →
      offsetChainOk off ((calcIdmapTuplesAux ids cur off).filter
        (fun t => decide (STANDARD_START ≤ t.2.1))) := by
  induction ids with
  | nil =>
    intro cur off _ _ hoff
    rw [calcIdmapTuplesAux]
    by_cases h : cur ≤ 65535
    · rw [if_pos h]
      rw [List.filter_cons, if_pos (by simpa using hoff)]
      exact ⟨rfl, trivial⟩
    · rw [if_neg h]
      exact trivial
  | cons p rest ih =>
    intro cur off hsort hb hoff
    have hoff100 : (100000 : Int) ≤ off := hoff
    obtain ⟨hps, hsr⟩ := List.sorted_cons.mp hsort
    obtain ⟨hcp, hp65⟩ := hb p (List.mem_cons_self _ _)
    have hb' : ∀ q ∈ rest, p + 1 ≤ q ∧ q < 65536 := by
      intro q hq
      exact ⟨by have := hps q hq; omega, (hb q (List.mem_cons.mpr (Or.inr hq))).2⟩
    rw [calcIdmapTuplesAux, List.filter_append]
    have hpass : ((p, p, 1) :: calcIdmapTuplesAux rest (p + 1)
          (if cur < p then off + (p - cur) else off)).filter
          (fun t => decide (STANDARD_START ≤ t.2.1))
        = (calcIdmapTuplesAux rest (p + 1)
            (if cur < p then off + (p - cur) else off)).filter
          (fun t => decide (STANDARD_START ≤ t.2.1)) := by
      rw [List.filter_cons, if_neg (by
        simp only [decide_eq_true_eq]
        show ¬ (100000 : Int) ≤ p
        omega)]
    rw [hpass]
    by_cases h : cur < p
    · rw [if_pos h]
      rw [List.filter_cons, if_pos (by simpa using hoff)]
      refine ⟨rfl, ?_⟩
      have := ih (p + 1) (off + (p - cur)) hsr hb' (by omega)
      simp only [List.filter_nil, List.nil_append]
      simpa [h] using this
    · rw [if_neg h]
      simp only [List.filter_nil, List.nil_append]
      have := ih (p + 1) off hsr hb' hoff
      simpa [h] using this

theorem calcAux_passFilter (ids : List Int) :
    ∀ cur off, ids.Sorted (· < ·) →
      (∀ p ∈ ids, cur ≤ p ∧ p < 65536) → STANDARD_START ≤ off →
      (calcIdmapTuplesAux ids cur off).filter
          (fun t => decide (t.2.1 < STANDARD_START))
        = ids.map (fun p => (p, p, 1)) := by
  induction ids with
  | nil =>
    intro cur off _ _ hoff
    have hoff100 : (100000 : Int) ≤ off := hoff
    rw [calcIdmapTuplesAux]
    by_cases h : cur ≤ 65535
    · rw [if_pos h]
      rw [List.filter_cons, if_neg (by
        simp only [decide_eq_true_eq]
        show ¬ off < (100000 : Int)
        omega)]
      simp
    · rw [if_neg h]; simp
  | cons p rest ih =>
    intro cur off hsort hb hoff
    have hoff100 : (100000 : Int) ≤ off := hoff
    obtain ⟨hps, hsr⟩ := List.sorted_cons.mp hsort
    obtain ⟨hcp, hp65⟩ := hb p (List.mem_cons_self _ _)
    have hb' : ∀ q ∈ rest, p + 1 ≤ q ∧ q < 65536 := by
      intro q hq
      exact ⟨by have := hps q hq; omega, (hb q (List.mem_cons.mpr (Or.inr hq))).2⟩
    rw [calcIdmapTuplesAux, List.filter_append]
    have hsh : ((if cur < p then [(cur, off, p - cur)] else []).filter
          (fun t => decide (t.2.1 < STANDARD_START))) = [] := by
      by_cases h : cur < p
      · rw [if_pos h]
        rw [List.filter_cons, if_neg (by
          simp only [decide_eq_true_eq]
          show ¬ off < (100000 : Int)
          omega)]
        rfl
      · rw [if_neg h]; rfl
    rw [hsh, List.nil_append, List.filter_cons,
      if_pos (by
        simp only [decide_eq_true_eq]
        show p < (100000 : Int)
        omega)]
    have hoff' : STANDARD_START ≤ (if cur < p then off + (p - cur) else off) := by
      by_cases h : cur < p <;> simp only [h, if_true, if_false] <;> omega
    rw [ih (p + 1) (if cur < p then off + (p - cur) else off) hsr hb' hoff']
    rfl

theorem calcAux_getLast (ids : List Int) :
    ∀ cur off, ids.Sorted (· < ·) →
      (∀ p ∈ ids, cur ≤ p ∧ p < 65536) →
      ∀ m, ids.getLast? = some m → m < 65535 →
      ∃ h, (calcIdmapTuplesAux ids cur off).getLast?
        = some (m + 1, h, 65536 - (m + 1)) := by
  induction ids with
  | nil =>
    intro cur off _ _ m hm
    simp at hm
  | cons p rest ih =>
    intro cur off hsort hb m hm hm65
    obtain ⟨hps, hsr⟩ := List.sorted_cons.mp hsort
    obtain ⟨hcp, hp65⟩ := hb p (List.mem_cons_self _ _)
    have hb' : ∀ q ∈ rest, p + 1 ≤ q ∧ q < 65536 := by
      intro q hq
      exact ⟨by have := hps q hq; omega, (hb q (List.mem_cons.mpr (Or.inr hq))).2⟩
    rw [calcIdmapTuplesAux]
    rcases hrest : rest with _ | ⟨q, rest'⟩
    · subst hrest
      have hpm : p = m := by simpa using hm
      subst hpm
      rw [show calcIdmapTuplesAux [] (p + 1) (if cur < p then off + (p - cur) else off)
          = [(p + 1, if cur < p then off + (p - cur) else off, 65536 - (p + 1))] from by
        rw [calcIdmapTuplesAux, if_pos (by omega)]]
      refine ⟨if cur < p then off + (p - cur) else off, ?_⟩
      rw [List.getLast?_append]
      rfl
    · have hm' : rest.getLast? = some m := by
        rw [hrest] at hm ⊢
        rw [← hm]
        exact (List.getLast?_cons_cons ..).symm
      obtain ⟨hh, hlast⟩ := ih (p + 1) (if cur < p then off + (p - cur) else off)
        hsr hb' m hm' hm65
      refine ⟨hh, ?_⟩
      rw [List.getLast?_append, ← hrest]
      have hne : calcIdmapTuplesAux rest (p + 1)
          (if cur < p then off + (p - cur) else off) ≠ [] := by
        rw [hrest]; exact calcAux_ne_nil q rest' (p + 1) _
      rcases hx : calcIdmapTuplesAux rest (p + 1)
          (if cur < p then off + (p - cur) else off) with _ | ⟨a, la⟩
      · exact absurd hx hne
      · rw [hx] at hlast
        rw [List.getLast?_cons_cons, hlast]
        rfl

/-! ### Lemmas: Python string primitives on rendered idmap lines -/

theorem pyStripChars_id {l : List Char} (hne : l ≠ [])
    (hhead : ∀ c, l.head? = some c → pyIsSpace c = false)
    (hlast : ∀ c, l.getLast? = some c → pyIsSpace c = false) :
    pyStripChars l = l := by
  rcases l with _ | ⟨c, m⟩
  · simp at hne
  · have h1 : (c :: m).dropWhile pyIsSpace = c :: m := by
      rw [List.dropWhile_cons, hhead c rfl]
      simp
    rw [pyStripChars, h1]
    rcases hr : (c :: m).reverse with _ | ⟨d, r'⟩
    · have := congrArg List.length hr
      simp at this
    · have hd : pyIsSpace d = false := by
        apply hlast
        rw [List.getLast?_eq_head?_reverse, hr]
        rfl
      rw [List.dropWhile_cons, hd]
      simp only [Bool.false_eq_true, if_false]
      rw [← hr, List.reverse_reverse]

theorem getLast?_append_right {x y : List Char} (hy : y ≠ []) :
    (x ++ y).getLast? = y.getLast? := by
  rw [List.getLast?_append]
  rcases hl : y.getLast? with _ | d
  · rw [List.getLast?_eq_none_iff] at hl
    exact absurd hl hy
  · rfl

theorem splitWSAux_token (t : List Char) (hws : ∀ c ∈ t, pyIsSpace c = false) :
    ∀ (l acc : List Char), splitWSAux (t ++ l) acc = splitWSAux l (t.reverse ++ acc) := by
  induction t with
  | nil => intro l acc; simp
  | cons c cs ih =>
    intro l acc
    have hc := hws c (List.mem_cons_self _ _)
    rw [List.cons_append, splitWSAux, hc]
    simp only [Bool.false_eq_true, if_false]
    rw [ih (fun d hd => hws d (List.mem_cons.mpr (Or.inr hd))) l (c :: acc)]
    simp [List.append_assoc]

theorem pySplit_token_cons (t l : List Char) (hws : ∀ c ∈ t, pyIsSpace c = false)
    (hne : t ≠ []) :
    pySplitWSChars (t ++ ' ' :: l) = t :: pySplitWSChars l := by
  rw [pySplitWSChars, splitWSAux_token t hws (' ' :: l) [], splitWSAux]
  have : pyIsSpace ' ' = true := by decide
  rw [this]
  simp only [if_true, List.append_nil]
  have hrev : (t.reverse).isEmpty = false := by
    rcases t with _ | ⟨c, cs⟩
    · simp at hne
    · simp [List.isEmpty_iff]
  rw [hrev]
  simp only [Bool.false_eq_true, if_false, List.reverse_reverse]
  rfl

theorem pySplit_token_last (t : List Char) (hws : ∀ c ∈ t, pyIsSpace c = false)
    (hne : t ≠ []) :
    pySplitWSChars t = [t] := by
  rw [pySplitWSChars, show t = t ++ [] from (List.append_nil t).symm,
    splitWSAux_token t hws [] [], splitWSAux]
  have hrev : (t.reverse ++ []).isEmpty = false := by
    rcases t with _ | ⟨c, cs⟩
    · simp at hne
    · simp [List.isEmpty_iff]
  rw [hrev]
  simp

theorem digits_no_ws :
    ∀ c ∈ (['0','1','2','3','4','5','6','7','8','9'] : List Char), pyIsSpace c = false := by
  decide

theorem digits_no_eq :
    ∀ c ∈ (['0','1','2','3','4','5','6','7','8','9'] : List Char), ¬ c = '=' := by
  decide

theorem intToChars_ne_nil (i : Int) : intToChars i ≠ [] := by
  rw [intToChars]
  by_cases h : i < 0
  · rw [if_pos h]; simp
  · rw [if_neg h]; exact natToChars_ne_nil _

theorem intToChars_no_ws (i : Int) : ∀ c ∈ intToChars i, pyIsSpace c = false := by
  intro c hc
  rw [intToChars] at hc
  by_cases h : i < 0
  · rw [if_pos h] at hc
    rcases List.mem_cons.mp hc with rfl | hc
    · decide
    · exact digits_no_ws c (natToChars_digits _ c hc)
  · rw [if_neg h] at hc
    exact digits_no_ws c (natToChars_digits _ c hc)

theorem intToChars_no_eq (i : Int) : ∀ c ∈ intToChars i, ¬ c = '=' := by
  intro c hc
  rw [intToChars] at hc
  by_cases h : i < 0
  · rw [if_pos h] at hc
    rcases List.mem_cons.mp hc with rfl | hc
    · decide
    · exact digits_no_eq c (natToChars_digits _ c hc)
  · rw [if_neg h] at hc
    exact digits_no_eq c (natToChars_digits _ c hc)

theorem replaceEqColon_id {l : List Char} (h : ∀ c ∈ l, ¬ c = '=') :
    replaceEqColonChars l = l := by
  induction l with
  | nil => rfl
  | cons c cs ih =>
    rw [replaceEqColonChars, List.map_cons,
      if_neg (h c (List.mem_cons_self _ _))]
    have := ih (fun d hd => h d (List.mem_cons.mpr (Or.inr hd)))
    rw [replaceEqColonChars] at this
    rw [this]

theorem renderIdmapLine_data (kind : String) (a b c : Int) :
    (renderIdmapLine kind a b c).data
      = "lxc.idmap:".data ++ ' ' :: (kind.data
        ++ ' ' :: (intToChars a ++ ' ' :: (intToChars b ++ ' ' :: intToChars c))) := by
  simp only [renderIdmapLine, String.data_append, intToStr,
    show ∀ l : List Char, (String.mk l).data = l from fun l => rfl,
    show "lxc.idmap: ".data = "lxc.idmap:".data ++ [' '] from rfl,
    show (" " : String).data = [' '] from rfl]
  simp [List.append_assoc]

theorem idmapLine_strip (kc A B C : List Char)
    (hCne : C ≠ []) (hCws : ∀ c ∈ C, pyIsSpace c = false) :
    pyStripChars ("lxc.idmap:".data
        ++ ' ' :: (kc ++ ' ' :: (A ++ ' ' :: (B ++ ' ' :: C))))
      = "lxc.idmap:".data ++ ' ' :: (kc ++ ' ' :: (A ++ ' ' :: (B ++ ' ' :: C))) := by
  apply pyStripChars_id
  · simp
  · intro c hc
    have h : ("lxc.idmap:".data
        ++ ' ' :: (kc ++ ' ' :: (A ++ ' ' :: (B ++ ' ' :: C)))).head? = some 'l' := rfl
    rw [h] at hc
    cases hc
    decide
  · intro c hc
    have h1 : ("lxc.idmap:".data
          ++ ' ' :: (kc ++ ' ' :: (A ++ ' ' :: (B ++ ' ' :: C)))).getLast?
        = C.getLast? := by
      rw [getLast?_append_right (by simp)]
      rw [show (' ' :: (kc ++ ' ' :: (A ++ ' ' :: (B ++ ' ' :: C))))
          = [' '] ++ (kc ++ ' ' :: (A ++ ' ' :: (B ++ ' ' :: C))) from rfl]
      rw [getLast?_append_right (by simp)]
      rw [getLast?_append_right (by simp)]
      rw [show (' ' :: (A ++ ' ' :: (B ++ ' ' :: C)))
          = [' '] ++ (A ++ ' ' :: (B ++ ' ' :: C)) from rfl]
      rw [getLast?_append_right (by simp)]
      rw [getLast?_append_right (by simp)]
      rw [show (' ' :: (B ++ ' ' :: C)) = [' '] ++ (B ++ ' ' :: C) from rfl]
      rw [getLast?_append_right (by simp)]
      rw [getLast?_append_right (by simp)]
      rw [show (' ' :: C) = [' '] ++ C from rfl]
      rw [getLast?_append_right hCne]
    rw [h1] at hc
    exact hCws c (List.mem_of_mem_getLast? hc)

theorem idmapLine_startsWith (kc A B C : List Char) :
    listStartsWith "lxc.idmap".data ("lxc.idmap:".data
        ++ ' ' :: (kc ++ ' ' :: (A ++ ' ' :: (B ++ ' ' :: C)))) = true := by
  rw [listStartsWith, List.isPrefixOf_iff_prefix,
    show "lxc.idmap:".data = "lxc.idmap".data ++ [':'] from rfl,
    List.append_assoc]
  exact List.prefix_append _ _

theorem idmapLine_split (kc A B C : List Char)
    (hkne : kc ≠ []) (hkws : ∀ c ∈ kc, pyIsSpace c = false)
    (hkeq : ∀ c ∈ kc, ¬ c = '=')
    (hAne : A ≠ []) (hAws : ∀ c ∈ A, pyIsSpace c = false)
    (hAeq : ∀ c ∈ A, ¬ c = '=')
    (hBne : B ≠ []) (hBws : ∀ c ∈ B, pyIsSpace c = false)
    (hBeq : ∀ c ∈ B, ¬ c = '=')
    (hCne : C ≠ []) (hCws : ∀ c ∈ C, pyIsSpace c = false)
    (hCeq : ∀ c ∈ C, ¬ c = '=') :
    pySplitWSChars (replaceEqColonChars ("lxc.idmap:".data
        ++ ' ' :: (kc ++ ' ' :: (A ++ ' ' :: (B ++ ' ' :: C)))))
      = ["lxc.idmap:".data, kc, A, B, C] := by
  have hrep : replaceEqColonChars ("lxc.idmap:".data
        ++ ' ' :: (kc ++ ' ' :: (A ++ ' ' :: (B ++ ' ' :: C))))
      = "lxc.idmap:".data ++ ' ' :: (kc ++ ' ' :: (A ++ ' ' :: (B ++ ' ' :: C))) := by
    have hlit : ∀ c ∈ ("lxc.idmap:".data : List Char), ¬ c = '=' := by decide
    apply replaceEqColon_id
    intro c hc
    rcases List.mem_append.mp hc with h | h
    · exact hlit c h
    · rcases List.mem_cons.mp h with rfl | h
      · decide
      · rcases List.mem_append.mp h with h | h
        · exact hkeq c h
        · rcases List.mem_cons.mp h with rfl | h
          · decide
          · rcases List.mem_append.mp h with h | h
            · exact hAeq c h
            · rcases List.mem_cons.mp h with rfl | h
              · decide
              · rcases List.mem_append.mp h with h | h
                · exact hBeq c h
                · rcases List.mem_cons.mp h with rfl | h
                  · decide
                  · exact hCeq c h
  rw [hrep]
  rw [pySplit_token_cons "lxc.idmap:".data _ (by decide) (by decide)]
  rw [pySplit_token_cons kc _ hkws hkne]
  rw [pySplit_token_cons A _ hAws hAne]
  rw [pySplit_token_cons B _ hBws hBne]
  rw [pySplit_token_last C hCws hCne]

theorem parse_render {k : String} (hk : k = "u" ∨ k = "g") {a b c : Int}
    (ha : 0 ≤ a) (hb : 0 ≤ b) (hc : 0 ≤ c) :
    parseIdmapLineOpt (renderIdmapLine k a b c) k = some (a, b, c) := by
  have hkne : k.data ≠ [] := by rcases hk with rfl | rfl <;> decide
  have hkws : ∀ ch ∈ k.data, pyIsSpace ch = false := by
    rcases hk with rfl | rfl <;> decide
  have hkeq : ∀ ch ∈ k.data, ¬ ch = '=' := by rcases hk with rfl | rfl <;> decide
  rw [parseIdmapLineOpt]
  rw [renderIdmapLine_data]
  rw [idmapLine_strip k.data (intToChars a) (intToChars b) (intToChars c)
    (intToChars_ne_nil c) (intToChars_no_ws c)]
  rw [idmapLine_startsWith]
  simp only [if_true]
  rw [idmapLine_split k.data (intToChars a) (intToChars b) (intToChars c)
    hkne hkws hkeq
    (intToChars_ne_nil a) (intToChars_no_ws a) (intToChars_no_eq a)
    (intToChars_ne_nil b) (intToChars_no_ws b) (intToChars_no_eq b)
    (intToChars_ne_nil c) (intToChars_no_ws c) (intToChars_no_eq c)]
  simp only [if_pos rfl]
  rw [pyIntChars_intToChars ha, pyIntChars_intToChars hb, pyIntChars_intToChars hc]
  simp

theorem is_target_render_same {k : String} (hk : k = "u" ∨ k = "g") (a b c : Int) :
    is_target_idmap_line (renderIdmapLine k a b c) k = true := by
  have hkne : k.data ≠ [] := by rcases hk with rfl | rfl <;> decide
  have hkws : ∀ ch ∈ k.data, pyIsSpace ch = false := by
    rcases hk with rfl | rfl <;> decide
  have hkeq : ∀ ch ∈ k.data, ¬ ch = '=' := by rcases hk with rfl | rfl <;> decide
  rw [is_target_idmap_line]
  rw [renderIdmapLine_data]
  rw [idmapLine_strip k.data (intToChars a) (intToChars b) (intToChars c)
    (intToChars_ne_nil c) (intToChars_no_ws c)]
  rw [idmapLine_startsWith]
  simp only [if_true]
  rw [idmapLine_split k.data (intToChars a) (intToChars b) (intToChars c)
    hkne hkws hkeq
    (intToChars_ne_nil a) (intToChars_no_ws a) (intToChars_no_eq a)
    (intToChars_ne_nil b) (intToChars_no_ws b) (intToChars_no_eq b)
    (intToChars_ne_nil c) (intToChars_no_ws c) (intToChars_no_eq c)]
  simp

theorem is_target_render_ne {k k' : String} (hk : k = "u" ∨ k = "g")
    (hk' : k' = "u" ∨ k' = "g") (hne : ¬ k' = k) (a b c : Int) :
    is_target_idmap_line (renderIdmapLine k' a b c) k = false := by
  have hkne : k'.data ≠ [] := by rcases hk' with rfl | rfl <;> decide
  have hkws : ∀ ch ∈ k'.data, pyIsSpace ch = false := by
    rcases hk' with rfl | rfl <;> decide
  have hkeq : ∀ ch ∈ k'.data, ¬ ch = '=' := by rcases hk' with rfl | rfl <;> decide
  rw [is_target_idmap_line]
  rw [renderIdmapLine_data]
  rw [idmapLine_strip k'.data (intToChars a) (intToChars b) (intToChars c)
    (intToChars_ne_nil c) (intToChars_no_ws c)]
  rw [idmapLine_startsWith]
  simp only [if_true]
  rw [idmapLine_split k'.data (intToChars a) (intToChars b) (intToChars c)
    hkne hkws hkeq
    (intToChars_ne_nil a) (intToChars_no_ws a) (intToChars_no_eq a)
    (intToChars_ne_nil b) (intToChars_no_ws b) (intToChars_no_eq b)
    (intToChars_ne_nil c) (intToChars_no_ws c) (intToChars_no_eq c)]
  have : ¬ k'.data = k.data := by
    rcases hk with rfl | rfl <;> rcases hk' with rfl | rfl <;> first
      | exact absurd rfl hne
      | decide
  simp [this]

/-! ### Lemmas: the stable key sort of parse_idmap_lines -/

theorem insertByKey_front {x : Int × Int × Int} {ys : List (Int × Int × Int)}
    (h : ∀ y ∈ ys, x.1 < y.1) : insertByKey x ys = x :: ys := by
  cases ys with
  | nil => rfl
  | cons y ys =>
    rw [insertByKey, if_neg]
    have := h y (List.mem_cons_self _ _)
    omega

theorem sortByKeyStable_sorted_id {l : List (Int × Int × Int)}
    (h : l.Pairwise (fun u v => u.1 < v.1)) : sortByKeyStable l = l := by
  induction l with
  | nil => rfl
  | cons x xs ih =>
    obtain ⟨hx, hxs⟩ := List.pairwise_cons.mp h
    show insertByKey x (sortByKeyStable xs) = x :: xs
    rw [ih hxs]
    exact insertByKey_front hx

theorem filterMap_map_eq_self {α β : Type} (l : List α) (f : α → β)
    (g : β → Option α) (h : ∀ a ∈ l, g (f a) = some a) :
    (l.map f).filterMap g = l := by
  induction l with
  | nil => rfl
  | cons x xs ih =>
    rw [List.map_cons, List.filterMap_cons, h x (List.mem_cons_self _ _),
      ih (fun a ha => h a (List.mem_cons.mpr (Or.inr ha)))]

/-- The segments obtained by parsing the rendered entries back are
exactly the triples computed by the allocator loop. -/
theorem parse_calc_segments {S : List Int} {k : String} {es : List String}
    {segs : List (Int × Int × Int)}
    (hk : k = "u" ∨ k = "g") (hS : S ≠ []) (hb : ∀ x ∈ S, 0 ≤ x ∧ x < 65536)
    (hcalc : calculate_idmap_entries S k = Except.ok es)
    (hparse : parse_idmap_lines es k = Except.ok segs) :
    segs = calcIdmapTuplesAux (sortedDedup S) 0 STANDARD_START := by
  have hdd : (sortedDedup S).isEmpty = false := by
    rcases hx : sortedDedup S with _ | ⟨y, ys⟩
    · exact absurd hx (sortedDedup_ne_nil hS)
    · rfl
  have hsorted : (sortedDedup S).Sorted (· < ·) := sortedDedup_sorted S
  have hbdd : ∀ x ∈ sortedDedup S, (0 : Int) ≤ x ∧ x < 65536 := by
    intro x hx
    exact hb x (mem_sortedDedup.mp hx)
  simp only [calculate_idmap_entries, if_pos hk, hdd, Bool.false_eq_true,
    if_false, Except.ok.injEq] at hcalc
  simp only [parse_idmap_lines, if_pos hk, Except.ok.injEq] at hparse
  subst hcalc
  have hround : ∀ t ∈ calcIdmapTuplesAux (sortedDedup S) 0 STANDARD_START,
      parseIdmapLineOpt (renderIdmapLine k t.1 t.2.1 t.2.2) k = some t := by
    intro t ht
    obtain ⟨⟨h1, _, h3, h4⟩, _⟩ := calcAux_fields (sortedDedup S) 0 STANDARD_START
      hsorted (fun p hp => ⟨(hbdd p hp).1, (hbdd p hp).2⟩) (by omega)
      (le_refl _) t ht
    rw [parse_render hk h1 h4 (by omega)]
  rw [filterMap_map_eq_self (calcIdmapTuplesAux (sortedDedup S) 0 STANDARD_START)
    (fun t : Int × Int × Int => renderIdmapLine k t.1 t.2.1 t.2.2)
    (fun l => parseIdmapLineOpt l k) hround] at hparse
  rw [sortByKeyStable_sorted_id (calcAux_keySorted (sortedDedup S) 0 STANDARD_START
    hsorted (fun p hp => (hbdd p hp).1))] at hparse
  exact hparse.symm

/-! ### Lemmas: counting non-passthrough ids -/

theorem cmbNat_succ (S : List Int) (n : Nat) :
    cmbNat S (n + 1) = cmbNat S n + (if (n : Int) ∈ S then 0 else 1) := by
  rw [cmbNat, List.range_succ, List.map_append, List.filter_append,
    List.length_append]
  congr 1
  by_cases h : (n : Int) ∈ S
  · rw [if_pos h]
    simp [List.filter, h]
  · rw [if_neg h]
    simp [List.filter, h]

theorem cmbNat_mono (S : List Int) {m m' : Nat} (h : m ≤ m') :
    cmbNat S m ≤ cmbNat S m' := by
  induction m' with
  | zero =>
    have hm0 : m = 0 := by omega
    subst hm0
    exact le_refl _
  | succ n ih =>
    by_cases hm : m ≤ n
    · calc cmbNat S m ≤ cmbNat S n := ih hm
        _ ≤ cmbNat S (n + 1) := by rw [cmbNat_succ]; omega
    · have : m = n + 1 := by omega
      subst this
      exact le_refl _

theorem countP_lt_cast_succ (D : List Int) (hD : D.Nodup) (x : Int) :
    D.countP (fun p => decide (p < x + 1))
      = D.countP (fun p => decide (p < x)) + (if x ∈ D then 1 else 0) := by
  induction D with
  | nil => simp
  | cons d D' ih =>
    obtain ⟨hd, hD'⟩ := List.nodup_cons.mp hD
    rw [List.countP_cons, List.countP_cons, ih hD']
    simp only [decide_eq_true_eq]
    by_cases hdx : d = x
    · subst hdx
      rw [if_pos (List.mem_cons_self _ _), if_neg hd]
      split_ifs <;> omega
    · have hmemiff : (x ∈ d :: D') ↔ x ∈ D' := by
        rw [List.mem_cons]
        constructor
        · rintro (rfl | h)
          · exact absurd rfl hdx
          · exact h
        · exact Or.inr
      by_cases hx : x ∈ D'
      · rw [if_pos hx, if_pos (hmemiff.mpr hx)]
        split_ifs <;> omega
      · rw [if_neg hx, if_neg (fun h => hx (hmemiff.mp h))]
        split_ifs <;> omega

theorem sortedDedup_nodup (S : List Int) : (sortedDedup S).Nodup := by
  have h := sortedDedup_sorted S
  exact h.imp (fun hlt => ne_of_lt hlt)

theorem countMissingBelow_formula (S : List Int) (hpos : ∀ x ∈ S, 0 ≤ x) :
    ∀ n : Nat, countMissingBelow S (n : Int)
      = (n : Int) - ((sortedDedup S).countP (fun p => decide (p < (n : Int))) : Int) := by
  intro n
  induction n with
  | zero =>
    have hz : (sortedDedup S).countP (fun p => decide (p < ((0 : Nat) : Int))) = 0 := by
      rw [List.countP_eq_zero]
      intro p hp
      have := hpos p (mem_sortedDedup.mp hp)
      simp only [decide_eq_true_eq]
      omega
    rw [hz]
    rfl
  | succ n ih =>
    have hcast : ((n + 1 : Nat) : Int) = (n : Int) + 1 := by push_cast; ring
    have h1 : countMissingBelow S ((n + 1 : Nat) : Int) = (cmbNat S (n + 1) : Int) := by
      have ht : ((n + 1 : Nat) : Int).toNat = n + 1 := by omega
      rw [countMissingBelow, ht]
    have h2 : countMissingBelow S ((n : Nat) : Int) = (cmbNat S n : Int) := by
      have ht : ((n : Nat) : Int).toNat = n := by omega
      rw [countMissingBelow, ht]
    rw [h1, hcast, countP_lt_cast_succ _ (sortedDedup_nodup S) (n : Int)]
    rw [h2] at ih
    rw [cmbNat_succ]
    have hm : ((n : Int) ∈ sortedDedup S) ↔ (n : Int) ∈ S := mem_sortedDedup
    by_cases hmem : (n : Int) ∈ S
    · rw [if_pos hmem, if_pos (hm.mpr hmem)]
      push_cast
      omega
    · rw [if_neg hmem, if_neg (fun h => hmem (hm.mp h))]
      push_cast
      omega

theorem countMissingBelow_strict (S : List Int) {c c' : Int}
    (hc : 0 ≤ c) (hlt : c < c') (hnot : ¬ c ∈ S) :
    countMissingBelow S c < countMissingBelow S c' := by
  have h1 : countMissingBelow S c = (cmbNat S c.toNat : Int) := rfl
  have h2 : countMissingBelow S c' = (cmbNat S c'.toNat : Int) := rfl
  have hstep : cmbNat S (c.toNat + 1) = cmbNat S c.toNat + 1 := by
    rw [cmbNat_succ]
    have : ((c.toNat : Int)) = c := Int.toNat_of_nonneg hc
    rw [this, if_neg hnot]
  have hmono : cmbNat S (c.toNat + 1) ≤ cmbNat S c'.toNat :=
    cmbNat_mono S (by omega)
  rw [h1, h2]
  omega

/-! ### Claim C1 -/

/-- Claim C1, counterexample: the claim quantifies over every finite set
S, but for S = ∅ calculate_idmap_entries returns no entries at all, so
container id 0 (which lies in [0, 65536)) is covered by zero entries
rather than exactly one — the spans do not partition [0, 65536). -/
theorem claim_C1_counterexample :
    calculate_idmap_entries ([] : List Int) "u" = Except.ok []
    ∧ parse_idmap_lines ([] : List String) "u" = Except.ok []
    ∧ ¬ (([] : List (Int × Int × Int)).countP
        (fun t => decide (t.1 ≤ (0 : Int) ∧ (0 : Int) < t.1 + t.2.2)) = 1) :=
  ⟨by rfl, by rfl, by decide⟩

/-- Claim C1 (amended: restricted to non-empty S): for every non-empty
finite set S of integers in [0, 65536) and kind k in {u, g}, the
container-side spans of the entries returned by
calculate_idmap_entries(S, k), as recovered by parse_idmap_lines, cover
every container id in [0, 65536) exactly once (no gaps, no overlaps) and
cover nothing outside [0, 65536). -/
theorem claim_C1 :
    ∀ (S : List Int) (k : String) (es : List String)
      (segs : List (Int × Int × Int)) (c : Int),
      (k = "u" ∨ k = "g") → S ≠ [] → (∀ x ∈ S, 0 ≤ x ∧ x < 65536) →
      calculate_idmap_entries S k = Except.ok es →
      parse_idmap_lines es k = Except.ok segs →
      ((0 ≤ c ∧ c < 65536) →
        segs.countP (fun t => decide (t.1 ≤ c ∧ c < t.1 + t.2.2)) = 1)
      ∧ (¬ (0 ≤ c ∧ c < 65536) →
        segs.countP (fun t => decide (t.1 ≤ c ∧ c < t.1 + t.2.2)) = 0) := by
  intro S k es segs c hk hS hb hcalc hparse
  have hseg := parse_calc_segments hk hS hb hcalc hparse
  subst hseg
  have hsorted := sortedDedup_sorted S
  have hbdd : ∀ x ∈ sortedDedup S, (0 : Int) ≤ x ∧ x < 65536 :=
    fun x hx => hb x (mem_sortedDedup.mp hx)
  have h := calcAux_countP (sortedDedup S) 0 STANDARD_START c hsorted hbdd (by omega)
  constructor
  · intro hc
    rw [h, if_pos ⟨hc.1, hc.2⟩]
  · intro hc
    rw [h, if_neg (by omega)]

/-- Witness for claim C1 at S = {1000, 2000}, k = u, c = 1500. -/
theorem claim_C1_witness :
    ([((0 : Int), (100000 : Int), (1000 : Int)), (1000, 1000, 1), (1001, 101000, 999),
      (2000, 2000, 1), (2001, 101999, 63535)] : List (Int × Int × Int)).countP
      (fun t => decide (t.1 ≤ (1500 : Int) ∧ (1500 : Int) < t.1 + t.2.2)) = 1 :=
  (claim_C1 [1000, 2000] "u"
    ["lxc.idmap: u 0 100000 1000", "lxc.idmap: u 1000 1000 1",
     "lxc.idmap: u 1001 101000 999", "lxc.idmap: u 2000 2000 1",
     "lxc.idmap: u 2001 101999 63535"]
    [(0, 100000, 1000), (1000, 1000, 1), (1001, 101000, 999),
     (2000, 2000, 1), (2001, 101999, 63535)] 1500
    (Or.inl rfl) (by decide) (by decide) (by rfl) (by rfl)).1 (by decide)

/-! ### Claim C2 -/

/-- Claim C2, counterexample: the claim lists the fifth entry of
calculate_idmap_entries({1000, 2000}, "u") as "u 2001 102000 63535", but
the code produces host offset 101999 there (offsets grow by exactly the
sizes 1000 and 999 of the two shift blocks consumed, not to 102000, the
value the source docstring and the spec example state). -/
theorem claim_C2_counterexample :
    calculate_idmap_entries [1000, 2000] "u" = Except.ok
      ["lxc.idmap: u 0 100000 1000", "lxc.idmap: u 1000 1000 1",
       "lxc.idmap: u 1001 101000 999", "lxc.idmap: u 2000 2000 1",
       "lxc.idmap: u 2001 101999 63535"]
    ∧ ¬ calculate_idmap_entries [1000, 2000] "u" = Except.ok
      ["lxc.idmap: u 0 100000 1000", "lxc.idmap: u 1000 1000 1",
       "lxc.idmap: u 1001 101000 999", "lxc.idmap: u 2000 2000 1",
       "lxc.idmap: u 2001 102000 63535"] := by
  have h1 : calculate_idmap_entries [1000, 2000] "u" = Except.ok
      ["lxc.idmap: u 0 100000 1000", "lxc.idmap: u 1000 1000 1",
       "lxc.idmap: u 1001 101000 999", "lxc.idmap: u 2000 2000 1",
       "lxc.idmap: u 2001 101999 63535"] := by rfl
  refine ⟨h1, ?_⟩
  intro h2
  have h3 := h1.symm.trans h2
  simp only [Except.ok.injEq] at h3
  exact absurd h3 (by decide)

/-- Claim C2 (amended: the fifth entry of the example reads
"u 2001 101999 63535", and the trailing shift block exists only when the
last passthrough id is below 65535): calculate_idmap_entries({1000,
2000}, "u") returns exactly the five listed entries in order; in general
entries are emitted in ascending container-id order, the host offsets of
the shift blocks start at 100000 and grow by each consumed block's size,
the passthrough entries are exactly the singletons (p, p, 1) for p in S
in ascending order, and after a last passthrough id m < 65535 a trailing
shift block starting at m + 1 of size 65536 - (m + 1) is emitted. -/
theorem claim_C2 :
    (calculate_idmap_entries [1000, 2000] "u" = Except.ok
      ["lxc.idmap: u 0 100000 1000", "lxc.idmap: u 1000 1000 1",
       "lxc.idmap: u 1001 101000 999", "lxc.idmap: u 2000 2000 1",
       "lxc.idmap: u 2001 101999 63535"])
    ∧ ∀ (S : List Int) (k : String) (es : List String)
        (segs : List (Int × Int × Int)),
      (k = "u" ∨ k = "g") → S ≠ [] → (∀ x ∈ S, 0 ≤ x ∧ x < 65536) →
      calculate_idmap_entries S k = Except.ok es →
      parse_idmap_lines es k = Except.ok segs →
      segs.Pairwise (fun a b => a.1 < b.1)
      ∧ offsetChainOk STANDARD_START
          (segs.filter (fun t => decide (STANDARD_START ≤ t.2.1)))
      ∧ segs.filter (fun t => decide (t.2.1 < STANDARD_START))
          = (sortedDedup S).map (fun p => (p, p, 1))
      ∧ (∀ m, (sortedDedup S).getLast? = some m → m < 65535 →
          ∃ h, segs.getLast? = some (m + 1, h, 65536 - (m + 1))) := by
  refine ⟨by rfl, ?_⟩
  intro S k es segs hk hS hb hcalc hparse
  have hseg := parse_calc_segments hk hS hb hcalc hparse
  subst hseg
  have hsorted := sortedDedup_sorted S
  have hbdd : ∀ x ∈ sortedDedup S, (0 : Int) ≤ x ∧ x < 65536 :=
    fun x hx => hb x (mem_sortedDedup.mp hx)
  refine ⟨?_, ?_, ?_, ?_⟩
  · exact calcAux_keySorted (sortedDedup S) 0 STANDARD_START hsorted
      (fun p hp => (hbdd p hp).1)
  · exact calcAux_offsetChain (sortedDedup S) 0 STANDARD_START hsorted hbdd
      (le_refl _)
  · exact calcAux_passFilter (sortedDedup S) 0 STANDARD_START hsorted hbdd
      (le_refl _)
  · intro m hm hm65
    exact calcAux_getLast (sortedDedup S) 0 STANDARD_START hsorted hbdd m hm hm65

/-- Witness for claim C2 at S = {1000, 2000}: the trailing shift block
starts at 2001 with size 63535. -/
theorem claim_C2_witness :
    ∃ h, ([((0 : Int), (100000 : Int), (1000 : Int)), (1000, 1000, 1),
      (1001, 101000, 999), (2000, 2000, 1), (2001, 101999, 63535)]
        : List (Int × Int × Int)).getLast? = some (2001, h, 63535) :=
  (claim_C2.2 [1000, 2000] "u"
    ["lxc.idmap: u 0 100000 1000", "lxc.idmap: u 1000 1000 1",
     "lxc.idmap: u 1001 101000 999", "lxc.idmap: u 2000 2000 1",
     "lxc.idmap: u 2001 101999 63535"]
    [(0, 100000, 1000), (1000, 1000, 1), (1001, 101000, 999),
     (2000, 2000, 1), (2001, 101999, 63535)]
    (Or.inl rfl) (by decide) (by decide) (by rfl) (by rfl)).2.2.2 2000
    (by rfl) (by decide)

/-! ### Claim C3 -/

/-- Claim C3: for every non-empty finite set S ⊆ [0, 65536), kind k in
{u, g}, and container id c in [0, 65536), resolving c against the
segments parsed from calculate_idmap_entries(S, k) (via
parse_idmap_lines then compute_host_id_for_container_id, under either
privilege flag) yields c itself when c ∈ S and
100000 + (number of ids below c not in S) when c ∉ S; in particular the
resolved host id strictly increases between ids outside S (hence inside
each shift block). -/
theorem claim_C3 :
    ∀ (S : List Int) (k : String) (es : List String)
      (segs : List (Int × Int × Int)) (c c' : Int) (unpriv : Bool),
      (k = "u" ∨ k = "g") → S ≠ [] → (∀ x ∈ S, 0 ≤ x ∧ x < 65536) →
      0 ≤ c → c < 65536 →
      calculate_idmap_entries S k = Except.ok es →
      parse_idmap_lines es k = Except.ok segs →
      (compute_host_id_for_container_id c segs unpriv
        = if c ∈ S then c else STANDARD_START + countMissingBelow S c)
      ∧ (0 ≤ c' → c' < 65536 → c < c' → ¬ c ∈ S → ¬ c' ∈ S →
          compute_host_id_for_container_id c segs unpriv
            < compute_host_id_for_container_id c' segs unpriv) := by
  intro S k es segs c c' unpriv hk hS hb hc0 hc65 hcalc hparse
  have hseg := parse_calc_segments hk hS hb hcalc hparse
  subst hseg
  have hsorted := sortedDedup_sorted S
  have hbdd : ∀ x ∈ sortedDedup S, (0 : Int) ≤ x ∧ x < 65536 :=
    fun x hx => hb x (mem_sortedDedup.mp hx)
  have hpos : ∀ x ∈ S, (0 : Int) ≤ x := fun x hx => (hb x hx).1
  have hval : ∀ d : Int, 0 ≤ d → d < 65536 →
      compute_host_id_for_container_id d
        (calcIdmapTuplesAux (sortedDedup S) 0 STANDARD_START) unpriv
      = if d ∈ S then d else STANDARD_START + countMissingBelow S d := by
    intro d hd0 hd65
    rw [calcAux_resolve (sortedDedup S) 0 STANDARD_START d unpriv hsorted hbdd hd0 hd65]
    obtain ⟨n, rfl⟩ : ∃ n : Nat, d = (n : Int) :=
      ⟨d.toNat, (Int.toNat_of_nonneg hd0).symm⟩
    rw [countMissingBelow_formula S hpos n]
    by_cases hmem : (n : Int) ∈ S
    · rw [if_pos (mem_sortedDedup.mpr hmem), if_pos hmem]
    · rw [if_neg (fun h => hmem (mem_sortedDedup.mp h)), if_neg hmem]
      omega
  constructor
  · exact hval c hc0 hc65
  · intro hc'0 hc'65 hlt hcS hc'S
    rw [hval c hc0 hc65, hval c' hc'0 hc'65, if_neg hcS, if_neg hc'S]
    have := countMissingBelow_strict S hc0 hlt hcS
    omega

/-- Witness for claim C3 at S = {1000, 2000}, c = 1500, c' = 1700:
container id 1500 resolves through the second shift block. -/
theorem claim_C3_witness :
    (compute_host_id_for_container_id 1500
      [((0 : Int), (100000 : Int), (1000 : Int)), (1000, 1000, 1), (1001, 101000, 999),
       (2000, 2000, 1), (2001, 101999, 63535)] false
      = if (1500 : Int) ∈ [(1000 : Int), 2000] then (1500 : Int)
        else STANDARD_START + countMissingBelow [1000, 2000] 1500)
    ∧ compute_host_id_for_container_id 1500
        [((0 : Int), (100000 : Int), (1000 : Int)), (1000, 1000, 1), (1001, 101000, 999),
         (2000, 2000, 1), (2001, 101999, 63535)] false
      < compute_host_id_for_container_id 1700
        [((0 : Int), (100000 : Int), (1000 : Int)), (1000, 1000, 1), (1001, 101000, 999),
         (2000, 2000, 1), (2001, 101999, 63535)] false := by
  have h := claim_C3 [1000, 2000] "u"
    ["lxc.idmap: u 0 100000 1000", "lxc.idmap: u 1000 1000 1",
     "lxc.idmap: u 1001 101000 999", "lxc.idmap: u 2000 2000 1",
     "lxc.idmap: u 2001 101999 63535"]
    [(0, 100000, 1000), (1000, 1000, 1), (1001, 101000, 999),
     (2000, 2000, 1), (2001, 101999, 63535)] 1500 1700 false
    (Or.inl rfl) (by decide) (by decide) (by decide) (by decide) (by rfl) (by rfl)
  exact ⟨h.1, h.2 (by decide) (by decide) (by decide) (by decide) (by decide)⟩

/-! ### Lemmas: readlines and line-oriented texts -/

theorem splitKeepNlAux_line (m : List Char) (hm : ¬ '\n' ∈ m) :
    ∀ (r acc : List Char), splitKeepNlAux ((m ++ ['\n']) ++ r) acc
      = (acc.reverse ++ (m ++ ['\n'])) :: splitKeepNlAux r [] := by
  induction m with
  | nil =>
    intro r acc
    simp only [List.nil_append]
    rw [show ['\n'] ++ r = '\n' :: r from rfl, splitKeepNlAux, if_pos rfl]
  | cons c m' ih =>
    intro r acc
    have hc : ¬ c = '\n' := fun h => hm (h ▸ List.mem_cons_self _ _)
    have hm' : ¬ '\n' ∈ m' := fun h => hm (List.mem_cons.mpr (Or.inr h))
    rw [show ((c :: m') ++ ['\n']) ++ r = c :: ((m' ++ ['\n']) ++ r) by simp,
      splitKeepNlAux, if_neg hc, ih hm' r (c :: acc)]
    simp [List.append_assoc]

theorem splitKeepNl_wf_prefix :
    ∀ (ls : List (List Char)),
      (∀ l ∈ ls, ∃ m, l = m ++ ['\n'] ∧ ¬ '\n' ∈ m) →
      ∀ b : List Char, splitKeepNlAux (ls.flatten ++ b) [] = ls ++ splitKeepNlAux b [] := by
  intro ls
  induction ls with
  | nil => intro _ b; simp
  | cons l ls' ih =>
    intro h b
    obtain ⟨m, rfl, hm⟩ := h l (List.mem_cons_self _ _)
    rw [show ((m ++ ['\n']) :: ls').flatten ++ b = (m ++ ['\n']) ++ (ls'.flatten ++ b) by
      simp [List.append_assoc]]
    rw [splitKeepNlAux_line m hm]
    rw [ih (fun x hx => h x (List.mem_cons.mpr (Or.inr hx))) b]
    simp

theorem splitKeepNlAux_wf :
    ∀ (s acc : List Char), ¬ '\n' ∈ acc → s.getLast? = some '\n' →
      ∀ l ∈ splitKeepNlAux s acc, ∃ m, l = m ++ ['\n'] ∧ ¬ '\n' ∈ m := by
  intro s
  induction s with
  | nil => intro acc _ h; simp at h
  | cons c s' ih =>
    intro acc hacc hlast l hl
    rcases hs' : s' with _ | ⟨d, s''⟩
    · subst hs'
      have hc : c = '\n' := by simpa using hlast
      subst hc
      rw [splitKeepNlAux, if_pos rfl] at hl
      rcases List.mem_cons.mp hl with rfl | hl2
      · exact ⟨acc.reverse, rfl, fun h => hacc (List.mem_reverse.mp h)⟩
      · simp [splitKeepNlAux] at hl2
    · subst hs'
      have hlast' : (d :: s'').getLast? = some '\n' := by
        rw [← hlast]
        exact (List.getLast?_cons_cons ..).symm
      rw [splitKeepNlAux] at hl
      by_cases hc : c = '\n'
      · rw [if_pos hc] at hl
        rcases List.mem_cons.mp hl with rfl | hl2
        · exact ⟨acc.reverse, rfl, fun h => hacc (List.mem_reverse.mp h)⟩
        · exact ih [] (by simp) hlast' l hl2
      · rw [if_neg hc] at hl
        refine ih (c :: acc) ?_ hlast' l hl
        intro h
        rcases List.mem_cons.mp h with h1 | h1
        · exact hc h1.symm
        · exact hacc h1

theorem splitKeepNlAux_flatten :
    ∀ (s acc : List Char), (splitKeepNlAux s acc).flatten = acc.reverse ++ s := by
  intro s
  induction s with
  | nil =>
    intro acc
    rw [splitKeepNlAux]
    rcases hacc : acc.isEmpty with _ | _
    · simp only [Bool.false_eq_true, if_false]
      simp
    · have : acc = [] := by
        rcases acc with _ | ⟨x, xs⟩
        · rfl
        · simp at hacc
      subst this
      simp
  | cons c s' ih =>
    intro acc
    rw [splitKeepNlAux]
    by_cases hc : c = '\n'
    · subst hc
      rw [if_pos rfl]
      simp [ih, List.append_assoc]
    · rw [if_neg hc]
      rw [ih (c :: acc)]
      simp [List.append_assoc]

theorem map_mk_map_data :
    ∀ L : List String, (L.map String.data).map String.mk = L := by
  intro L
  induction L with
  | nil => rfl
  | cons l ls ih => simp [ih]

theorem pyReadlines_wf (text : String)
    (h : text = "" ∨ text.data.getLast? = some '\n') :
    ∀ l ∈ pyReadlines text, ∃ m, l.data = m ++ ['\n'] ∧ ¬ '\n' ∈ m := by
  intro l hl
  rcases h with rfl | h
  · simp [pyReadlines, splitKeepNlAux] at hl
  · rw [pyReadlines] at hl
    obtain ⟨chunk, hchunk, rfl⟩ := List.mem_map.mp hl
    obtain ⟨m, rfl, hm⟩ := splitKeepNlAux_wf text.data [] (by simp) h chunk hchunk
    exact ⟨m, rfl, hm⟩

theorem pyReadlines_concat (L : List String)
    (h : ∀ l ∈ L, ∃ m, l.data = m ++ ['\n'] ∧ ¬ '\n' ∈ m) :
    pyReadlines (concatStrings L) = L := by
  rw [pyReadlines, concatStrings,
    show (String.mk (L.map String.data).flatten).data = (L.map String.data).flatten from rfl]
  have hwf : ∀ l ∈ L.map String.data, ∃ m, l = m ++ ['\n'] ∧ ¬ '\n' ∈ m := by
    intro l hl
    obtain ⟨str, hstr, rfl⟩ := List.mem_map.mp hl
    exact h str hstr
  have := splitKeepNl_wf_prefix (L.map String.data) hwf []
  rw [List.append_nil] at this
  rw [this, show (splitKeepNlAux [] [] : List (List Char)) = [] from rfl,
    List.append_nil, map_mk_map_data]

theorem pyReadlines_append_wf (content X : String)
    (h : content = "" ∨ content.data.getLast? = some '\n') :
    pyReadlines (content ++ X) = pyReadlines content ++ pyReadlines X := by
  rcases h with rfl | h
  · rw [show ("" ++ X : String) = X from by
      apply String.ext
      simp [String.data_append]]
    rw [show pyReadlines "" = [] from rfl, List.nil_append]
  · have hwf : ∀ l ∈ splitKeepNlAux content.data [], ∃ m, l = m ++ ['\n'] ∧ ¬ '\n' ∈ m :=
      splitKeepNlAux_wf content.data [] (by simp) h
    have hfl : (splitKeepNlAux content.data []).flatten = content.data :=
      by rw [splitKeepNlAux_flatten]; rfl
    rw [pyReadlines, String.data_append, ← hfl,
      splitKeepNl_wf_prefix (splitKeepNlAux content.data []) hwf X.data,
      List.map_append]
    rfl

theorem pyStripChars_append_ws (c : Char) (hc : pyIsSpace c = true) (l : List Char) :
    pyStripChars (l ++ [c]) = pyStripChars l := by
  rw [pyStripChars, pyStripChars, List.dropWhile_append]
  rcases hdl : (l.dropWhile pyIsSpace).isEmpty with _ | _
  · simp only [Bool.false_eq_true, if_false]
    rw [List.reverse_append]
    rw [show ([c].reverse : List Char) = [c] from rfl]
    rw [show ([c] ++ (l.dropWhile pyIsSpace).reverse : List Char)
        = c :: (l.dropWhile pyIsSpace).reverse from rfl]
    rw [List.dropWhile_cons, hc]
    simp
  · simp only [if_true]
    have : l.dropWhile pyIsSpace = [] := by
      rcases hx : l.dropWhile pyIsSpace with _ | ⟨y, ys⟩
      · rfl
      · rw [hx] at hdl; simp at hdl
    rw [this, show (List.dropWhile pyIsSpace [c] : List Char) = [] from by
      simp [List.dropWhile_cons, hc]]

theorem is_target_append_nl (e k : String) :
    is_target_idmap_line (e ++ "\n") k = is_target_idmap_line e k := by
  rw [is_target_idmap_line, is_target_idmap_line]
  rw [show (e ++ "\n").data = e.data ++ ['\n'] from by
    rw [String.data_append]]
  rw [pyStripChars_append_ws '\n' (by decide) e.data]

theorem pyStrip_append_nl (e : String) : pyStrip (e ++ "\n") = pyStrip e := by
  rw [pyStrip, pyStrip]
  rw [show (e ++ "\n").data = e.data ++ ['\n'] from by
    rw [String.data_append]]
  rw [pyStripChars_append_ws '\n' (by decide) e.data]

/-! ### Claim C4 -/

/-- Claim C4, counterexample: "lxc.idmap=u 0 100000 65536" is an
=-separated idmap line of kind u under the spec's line syntax
(specIdmapLineOfKind), yet merging kind u keeps it verbatim: after
replacing "=" by ":" the second whitespace-delimited field is
"lxc.idmap:u", so is_target_idmap_line rejects the line. -/
theorem claim_C4_counterexample :
    specIdmapLineOfKind "lxc.idmap=u 0 100000 65536" "u" = true
    ∧ is_target_idmap_line "lxc.idmap=u 0 100000 65536" "u" = false
    ∧ update_lxc_config_kind_text "lxc.idmap=u 0 100000 65536\n" "u" []
        = Except.ok "lxc.idmap=u 0 100000 65536\n" :=
  ⟨by decide, by decide, by rfl⟩

/-- Claim C4 (amended: the removal predicate is the code's
whitespace-based recognizer — a line is removed exactly when its
stripped text starts with "lxc.idmap" and, after replacing "=" by ":",
its second whitespace-delimited field equals k; =-separated idmap lines
written without surrounding whitespace are kept): for every store text,
kind k in {u, g} and entry list, update_lxc_config_kind keeps every
non-removed line verbatim and in its original order (a sublist of the
original lines) and appends the new entries at the end; rendered idmap
lines of kind k are removed while rendered lines of the other kind are
kept, as in the spec's concrete u/g example. -/
theorem claim_C4 :
    (update_lxc_config_kind_text
        "lxc.idmap: u 0 100000 65536\nlxc.idmap: g 0 100000 65536\n" "g"
        ["lxc.idmap: g 0 200000 65536"]
      = Except.ok "lxc.idmap: u 0 100000 65536\nlxc.idmap: g 0 200000 65536\n")
    ∧ ∀ (text k : String) (es : List String), (k = "u" ∨ k = "g") →
      (update_lxc_config_kind_text text k es
        = Except.ok (concatStrings
            ((pyReadlines text).filter (fun l => ¬ is_target_idmap_line l k)
              ++ es.map (fun e => e ++ "\n"))))
      ∧ ((pyReadlines text).filter (fun l => ¬ is_target_idmap_line l k)).Sublist
          (pyReadlines text)
      ∧ (∀ a b c : Int, is_target_idmap_line (renderIdmapLine k a b c) k = true)
      ∧ (∀ (k' : String) (a b c : Int), (k' = "u" ∨ k' = "g") → ¬ k' = k →
          is_target_idmap_line (renderIdmapLine k' a b c) k = false) := by
  refine ⟨by rfl, ?_⟩
  intro text k es hk
  refine ⟨?_, List.filter_sublist _, fun a b c => is_target_render_same hk a b c,
    fun k' a b c hk' hne => is_target_render_ne hk hk' hne a b c⟩
  rw [update_lxc_config_kind_text, if_pos hk]

/-- Witness for claim C4: a store with a hostname line and an old u
idmap line, merged for kind u. -/
theorem claim_C4_witness :
    update_lxc_config_kind_text "hostname: box\nlxc.idmap: u 0 5 5\n" "u"
        ["lxc.idmap: u 0 100000 65536"]
      = Except.ok (concatStrings
          ((pyReadlines "hostname: box\nlxc.idmap: u 0 5 5\n").filter
              (fun l => ¬ is_target_idmap_line l "u")
            ++ ["lxc.idmap: u 0 100000 65536"].map (fun e => e ++ "\n"))) :=
  (claim_C4.2 "hostname: box\nlxc.idmap: u 0 5 5\n" "u"
    ["lxc.idmap: u 0 100000 65536"] (Or.inl rfl)).1

/-! ### Claim C5 -/

/-- Claim C5, counterexample: idempotence fails for an arbitrary entry
list — an entry that is not an idmap line of the merged kind is not
removed by the second run's filter and is appended a second time. -/
theorem claim_C5_counterexample :
    update_lxc_config_kind_text "" "u" ["hello"] = Except.ok "hello\n"
    ∧ update_lxc_config_kind_text "hello\n" "u" ["hello"]
        = Except.ok "hello\nhello\n"
    ∧ ¬ ("hello\nhello\n" : String) = "hello\n" :=
  ⟨by rfl, by rfl, by decide⟩

/-- Claim C5 (amended: idempotence holds when the store text is empty or
newline-terminated and every entry is a newline-free lxc.idmap line of
the merged kind, as the entries produced by calculate_idmap_entries
are): applying the merge twice with the same kind and the same entries
produces text identical to applying it once. -/
theorem claim_C5 :
    ∀ (text k t₁ : String) (es : List String),
      (k = "u" ∨ k = "g") →
      (text = "" ∨ text.data.getLast? = some '\n') →
      (∀ e ∈ es, is_target_idmap_line e k = true ∧ ¬ '\n' ∈ e.data) →
      update_lxc_config_kind_text text k es = Except.ok t₁ →
      update_lxc_config_kind_text t₁ k es = Except.ok t₁ := by
  intro text k t₁ es hk htext hes hupd
  rw [update_lxc_config_kind_text, if_pos hk, Except.ok.injEq] at hupd
  subst hupd
  rw [update_lxc_config_kind_text, if_pos hk]
  have hall : ∀ l ∈ ((pyReadlines text).filter
      (fun l => ¬ is_target_idmap_line l k) ++ es.map (fun e => e ++ "\n")),
      ∃ m, l.data = m ++ ['\n'] ∧ ¬ '\n' ∈ m := by
    intro l hl
    rcases List.mem_append.mp hl with h | h
    · exact pyReadlines_wf text htext l (List.mem_of_mem_filter h)
    · obtain ⟨e, he, rfl⟩ := List.mem_map.mp h
      exact ⟨e.data, by rw [String.data_append], (hes e he).2⟩
  rw [pyReadlines_concat _ hall, List.filter_append]
  have h1 : ((pyReadlines text).filter (fun l => ¬ is_target_idmap_line l k)).filter
      (fun l => ¬ is_target_idmap_line l k)
      = (pyReadlines text).filter (fun l => ¬ is_target_idmap_line l k) :=
    List.filter_eq_self.mpr (fun a ha => (List.mem_filter.mp ha).2)
  have h2 : (es.map (fun e => e ++ "\n")).filter
      (fun l => ¬ is_target_idmap_line l k) = [] := by
    rw [List.filter_eq_nil_iff]
    intro a ha
    obtain ⟨e, he, rfl⟩ := List.mem_map.mp ha
    show ¬ (decide (¬ is_target_idmap_line (e ++ "\n") k = true)) = true
    rw [is_target_append_nl, (hes e he).1]
    decide
  rw [h1, h2, List.append_nil]

/-- Witness for claim C5: merging the standard u mapping into an empty
store twice. -/
theorem claim_C5_witness :
    update_lxc_config_kind_text "lxc.idmap: u 0 100000 65536\n" "u"
        ["lxc.idmap: u 0 100000 65536"]
      = Except.ok "lxc.idmap: u 0 100000 65536\n" :=
  claim_C5 "" "u" "lxc.idmap: u 0 100000 65536\n"
    ["lxc.idmap: u 0 100000 65536"] (Or.inl rfl) (Or.inl rfl)
    (by intro e he; rw [List.mem_singleton] at he; subst he; exact ⟨by decide, by decide⟩)
    (by rfl)

/-! ### Claim C8 -/

/-- Claim C8, counterexample: update_file is not idempotent for every
entry list: the membership test compares the raw entry against the
stripped file lines, so an entry carrying trailing whitespace is
appended again on every invocation. -/
theorem claim_C8_counterexample :
    update_file_text "" ["a "] = "a \n"
    ∧ update_file_text "a \n" ["a "] = "a \na \n"
    ∧ ¬ ("a \na \n" : String) = "a \n" :=
  ⟨by rfl, by rfl, by decide⟩

/-- Claim C8 (amended: idempotence holds when the file content is empty
or newline-terminated and every entry is a non-empty, newline-free
string equal to its own stripped form — as the root:start:count entries
produced by calculate_subid_entries are): update_file only ever appends,
so every line present before the call is present afterwards, and a
second invocation with the same entries leaves the content unchanged. -/
theorem claim_C8 :
    ∀ (content : String) (entries : List String),
      (∃ suffix, update_file_text content entries = content ++ suffix)
      ∧ ((content = "" ∨ content.data.getLast? = some '\n') →
        (∀ e ∈ entries, pyStrip e = e ∧ ¬ e = "" ∧ ¬ '\n' ∈ e.data) →
        update_file_text (update_file_text content entries) entries
          = update_file_text content entries) := by
  intro content entries
  refine ⟨⟨_, rfl⟩, ?_⟩
  intro hcontent hent
  simp only [update_file_text]
  have hmapA : ∀ (es : List String), (∀ e ∈ es, pyStrip e = e) →
      (es.map (fun e => e ++ "\n")).map pyStrip = es := by
    intro es
    induction es with
    | nil => intro _; rfl
    | cons e es' ih =>
      intro h
      rw [List.map_cons, List.map_cons, pyStrip_append_nl,
        h e (List.mem_cons_self _ _),
        ih (fun x hx => h x (List.mem_cons.mpr (Or.inr hx)))]
  have happended : ∀ e ∈ entries.filter (fun e =>
      ¬ (((pyReadlines content).map pyStrip).filter (fun l => ¬ (l = ""))).contains e),
      pyStrip e = e ∧ ¬ e = "" ∧ ¬ '\n' ∈ e.data := by
    intro e he
    exact hent e (List.mem_of_mem_filter he)
  have hAwf : ∀ l ∈ (entries.filter (fun e =>
      ¬ (((pyReadlines content).map pyStrip).filter (fun l => ¬ (l = ""))).contains e)).map
        (fun e => e ++ "\n"),
      ∃ m, l.data = m ++ ['\n'] ∧ ¬ '\n' ∈ m := by
    intro l hl
    obtain ⟨e, he, rfl⟩ := List.mem_map.mp hl
    exact ⟨e.data, by rw [String.data_append], (happended e he).2.2⟩
  have hEX2 : ((pyReadlines (content ++ concatStrings ((entries.filter (fun e =>
        ¬ (((pyReadlines content).map pyStrip).filter (fun l => ¬ (l = ""))).contains e)).map
          (fun e => e ++ "\n")))).map pyStrip).filter (fun l => ¬ (l = ""))
      = (((pyReadlines content).map pyStrip).filter (fun l => ¬ (l = "")))
        ++ entries.filter (fun e =>
            ¬ (((pyReadlines content).map pyStrip).filter (fun l => ¬ (l = ""))).contains e) := by
    rw [pyReadlines_append_wf _ _ hcontent, pyReadlines_concat _ hAwf,
      List.map_append, List.filter_append, hmapA _ (fun e he => (happended e he).1)]
    congr 1
    exact List.filter_eq_self.mpr (fun a ha => by simpa using (happended a ha).2.1)
  have hfilter2 : entries.filter (fun e =>
      ¬ (((pyReadlines (content ++ concatStrings ((entries.filter (fun e =>
          ¬ (((pyReadlines content).map pyStrip).filter (fun l => ¬ (l = ""))).contains e)).map
            (fun e => e ++ "\n")))).map pyStrip).filter (fun l => ¬ (l = ""))).contains e)
      = [] := by
    rw [List.filter_eq_nil_iff]
    intro e he
    rw [hEX2]
    have hmem : e ∈ (((pyReadlines content).map pyStrip).filter (fun l => ¬ (l = "")))
        ++ entries.filter (fun e =>
          ¬ (((pyReadlines content).map pyStrip).filter (fun l => ¬ (l = ""))).contains e) := by
      by_cases hin : (((pyReadlines content).map pyStrip).filter
          (fun l => ¬ (l = ""))).contains e = true
      · exact List.mem_append.mpr (Or.inl (List.elem_iff.mp hin))
      · refine List.mem_append.mpr (Or.inr ?_)
        rw [List.mem_filter]
        exact ⟨he, by simpa using hin⟩
    have hcon : ((((pyReadlines content).map pyStrip).filter (fun l => ¬ (l = "")))
        ++ entries.filter (fun e =>
          ¬ (((pyReadlines content).map pyStrip).filter (fun l => ¬ (l = ""))).contains e)).contains e
        = true := List.elem_iff.mpr hmem
    rw [hcon]
    decide
  rw [hfilter2]
  rw [show concatStrings (([] : List String).map (fun e => e ++ "\n")) = "" from rfl,
    String.append_empty]

/-- Witness for claim C8: the subid entries for id 1000 merged twice
into an initially empty store. -/
theorem claim_C8_witness :
    update_file_text (update_file_text "" ["root:100000:65536", "root:1000:1"])
        ["root:100000:65536", "root:1000:1"]
      = update_file_text "" ["root:100000:65536", "root:1000:1"] :=
  (claim_C8 "" ["root:100000:65536", "root:1000:1"]).2 (Or.inl rfl)
    (by
      intro e he
      rcases List.mem_cons.mp he with rfl | he2
      · exact ⟨by decide, by decide, by decide⟩
      · rw [List.mem_singleton] at he2
        subst he2
        exact ⟨by decide, by decide, by decide⟩)

/-! ### Claim C7 -/

/-- Claim C7: calculate_idmap_entries(∅, k) and calculate_subid_entries(∅)
return the empty list, and when the parsed id request is empty
setup_idmap returns before performing any store mutation: the returned
stores are exactly the input stores and no mapped id is emitted. -/
theorem claim_C7 :
    (∀ k : String, (k = "u" ∨ k = "g") →
      calculate_idmap_entries [] k = Except.ok [])
    ∧ calculate_subid_entries [] = []
    ∧ ∀ (kind id_str vm_id : String) (st : IdmapStores),
        (kind = "u" ∨ kind = "g") → parse_ids id_str = Except.ok [] →
        setup_idmap kind id_str vm_id st = Except.ok (st, none) := by
  refine ⟨?_, by rfl, ?_⟩
  · intro k hk
    rw [calculate_idmap_entries, if_pos hk]
    rfl
  · intro kind id_str vm_id st hk hpid
    rw [setup_idmap, if_pos hk]
    simp [hpid]

/-- Witness for claim C7: kind u, the id string "0", a numeric vm id and
empty stores. -/
theorem claim_C7_witness :
    setup_idmap "u" "0" "123" ⟨none, none⟩
      = Except.ok (⟨none, none⟩, none) :=
  claim_C7.2.2 "u" "0" "123" ⟨none, none⟩ (Or.inl rfl) (by rfl)

/-! ### Claim C10 -/

/-- Claim C10, counterexample: parse_ids strips its argument before
comparing with "0", so the string " 0 " — which is neither empty, nor
whitespace-only, nor the exact string "0", and whose only
comma-separated integer is 0 — also returns [] instead of [0]. -/
theorem claim_C10_counterexample :
    parse_ids " 0 " = Except.ok []
    ∧ ¬ ((Except.ok ([] : List Int) : Except String (List Int))
        = Except.ok [(0 : Int)]) :=
  ⟨by rfl, by intro h; simp at h⟩

/-- Claim C10 (amended: every string that STRIPS to "0" — not only the
exact string "0" — returns the empty list): parse_ids returns the
sorted, duplicate-free list of the comma-separated integers; empty and
whitespace-only strings and strings stripping to "0" return []; 0
appearing alongside other ids is kept. -/
theorem claim_C10 :
    parse_ids "" = Except.ok []
    ∧ parse_ids "   " = Except.ok []
    ∧ parse_ids "0" = Except.ok []
    ∧ parse_ids " 0 " = Except.ok []
    ∧ parse_ids "0,1000" = Except.ok [0, 1000]
    ∧ parse_ids "5, 3,5" = Except.ok [3, 5]
    ∧ ∀ (s : String) (l : List Int), parse_ids s = Except.ok l →
        l.Sorted (· < ·) ∧ l.Nodup := by
  refine ⟨by rfl, by rfl, by rfl, by rfl, by rfl, by rfl, ?_⟩
  intro s l h
  rw [parse_ids] at h
  by_cases hs : s = "" ∨ pyStrip s = "" ∨ pyStrip s = "0"
  · rw [if_pos hs, Except.ok.injEq] at h
    subst h
    exact ⟨List.sorted_nil, List.nodup_nil⟩
  · rw [if_neg hs] at h
    simp only [] at h
    rcases hseq : seqOptions (((((splitOnCharAux ',' s.data []).map pyStripChars)).filter
        (fun p => ¬ p.isEmpty)).map pyIntChars) with _ | vals
    · rw [hseq] at h
      exact absurd h (by simp)
    · rw [hseq, Except.ok.injEq] at h
      subst h
      exact ⟨sortedDedup_sorted _, sortedDedup_nodup _⟩

/-- Witness for claim C10: the result for "0,1000" is sorted and
duplicate-free. -/
theorem claim_C10_witness :
    ([0, 1000] : List Int).Sorted (· < ·) ∧ ([0, 1000] : List Int).Nodup :=
  claim_C10.2.2.2.2.2.2 "0,1000" [0, 1000] (by rfl)

/-! ### Lemmas: the managed-tag substring search -/

theorem replEscNlAux_true_cons (c : Char) (rest : List Char) :
    replEscNlAux true (c :: rest)
      = if c = 'n' then '\n' :: replEscNlAux false rest
        else if c = '\\' then '\\' :: replEscNlAux true rest
        else '\\' :: c :: replEscNlAux false rest := rfl

theorem replEscNlAux_false_cons (c : Char) (rest : List Char) :
    replEscNlAux false (c :: rest)
      = if c = '\\' then replEscNlAux true rest
        else c :: replEscNlAux false rest := rfl

theorem replEscNlAux_no_bs (t : List Char) (h : ∀ c ∈ t, ¬ c = '\\') :
    ∀ q, replEscNlAux false (t ++ q) = t ++ replEscNlAux false q := by
  induction t with
  | nil => intro q; rfl
  | cons c t ih =>
    intro q
    have hc : ¬ c = '\\' := h c (List.mem_cons_self c t)
    rw [List.cons_append, replEscNlAux_false_cons, if_neg hc,
      ih (fun d hd => h d (List.mem_cons_of_mem c hd)) q]
    rfl

theorem replEscNlAux_skeleton (p : List Char) :
    ∀ pend, ∃ a pend2, ∀ q,
      replEscNlAux pend (p ++ q) = a ++ replEscNlAux pend2 q := by
  induction p with
  | nil => intro pend; exact ⟨[], pend, fun q => by simp⟩
  | cons c p ih =>
    intro pend
    cases pend with
    | true =>
      by_cases hn : c = 'n'
      · obtain ⟨a, p2, hq⟩ := ih false
        refine ⟨'\n' :: a, p2, fun q => ?_⟩
        rw [List.cons_append, replEscNlAux_true_cons, if_pos hn, hq q]
        rfl
      · by_cases hb : c = '\\'
        · obtain ⟨a, p2, hq⟩ := ih true
          refine ⟨'\\' :: a, p2, fun q => ?_⟩
          rw [List.cons_append, replEscNlAux_true_cons, if_neg hn, if_pos hb, hq q]
          rfl
        · obtain ⟨a, p2, hq⟩ := ih false
          refine ⟨'\\' :: c :: a, p2, fun q => ?_⟩
          rw [List.cons_append, replEscNlAux_true_cons, if_neg hn, if_neg hb, hq q]
          rfl
    | false =>
      by_cases hb : c = '\\'
      · obtain ⟨a, p2, hq⟩ := ih true
        refine ⟨a, p2, fun q => ?_⟩
        rw [List.cons_append, replEscNlAux_false_cons, if_pos hb, hq q]
      · obtain ⟨a, p2, hq⟩ := ih false
        refine ⟨c :: a, p2, fun q => ?_⟩
        rw [List.cons_append, replEscNlAux_false_cons, if_neg hb, hq q]
        rfl

theorem replEscNlAux_managedTag (pend : Bool) (q : List Char) :
    ∃ pd, replEscNlAux pend (managedTag ++ q)
      = pd ++ (managedTag ++ replEscNlAux false q) := by
  have hnb : ∀ c ∈ managedTag, ¬ c = '\\' := by decide
  cases pend with
  | false => exact ⟨[], replEscNlAux_no_bs managedTag hnb q⟩
  | true =>
    refine ⟨['\\'], ?_⟩
    have h1 : managedTag ++ q
        = 'o' :: ("ci-lxc-deployer:managed".data ++ q) := rfl
    have hnb2 : ∀ c ∈ "ci-lxc-deployer:managed".data, ¬ c = '\\' := by decide
    rw [h1, replEscNlAux_true_cons, if_neg (by decide), if_neg (by decide),
      replEscNlAux_no_bs "ci-lxc-deployer:managed".data hnb2 q]
    rfl

theorem isPrefixCI_self_append (t : List Char) :
    ∀ s, isPrefixCI t (t ++ s) = true := by
  induction t with
  | nil => intro s; rfl
  | cons c t ih =>
    intro s
    show (charEqCI c c && isPrefixCI t (t ++ s)) = true
    rw [ih s, charEqCI, decide_eq_true rfl, Bool.and_self]

theorem searchSubCI_embed (pat : List Char) : ∀ (a s : List Char),
    searchSubCI pat (a ++ (pat ++ s)) = true := by
  intro a
  induction a with
  | nil =>
    intro s
    have hpre := isPrefixCI_self_append pat s
    rw [List.nil_append]
    cases h : pat ++ s with
    | nil =>
      have hp : pat = [] := (List.append_eq_nil.mp h).1
      subst hp
      rfl
    | cons c rest =>
      show (isPrefixCI pat (c :: rest) || searchSubCI pat rest) = true
      rw [← h, hpre, Bool.true_or]
  | cons c a ih =>
    intro s
    show (isPrefixCI pat (c :: (a ++ (pat ++ s)))
      || searchSubCI pat (a ++ (pat ++ s))) = true
    rw [ih s, Bool.or_true]

/-! ### Claim C6 -/

set_option maxRecDepth 10000 in
/-- Claim C6: the notes text built for exactly the fields
application_id = "demo" and version = "1.2.0" (every other argument the
empty string), when passed back through parse_lxc_config, yields
application_id = "demo" and version = "1.2.0", an empty addons list, and
every other optional field unset (the text is its own normalized and
decoded form, and it carries the managed marker). -/
theorem claim_C6 :
    parse_lxc_config
        (build_notes true "" "demo" "" "1.2.0" "" "" "" "" "" "" "" "" "" "") =
      { raw_text := build_notes true "" "demo" "" "1.2.0" "" "" "" "" "" "" "" "" "" ""
        decoded_text := build_notes true "" "demo" "" "1.2.0" "" "" "" "" "" "" "" "" "" ""
        hostname := none
        is_managed := true
        oci_image := none
        application_id := some "demo"
        application_name := none
        version := some "1.2.0"
        addons := []
        username := none
        uid := none
        gid := none
        id_mappings := []
        mount_points := []
        memory := none
        cores := none
        rootfs_storage := none
        disk_size := none
        bridge := none } := by
  decide

/-! ### Claim C9 -/

/-- Claim C9, counterexample refuting universal line-anchoring and
case-insensitivity at concrete inputs: the managed tag occurring as a
mid-token substring, at no line position, does produce a match; and
changing the case of the hostname label changes the extracted hostname
from some "box" to none. -/
theorem claim_C9_counterexample :
    is_managed_container "xxoci-lxc-deployer:managedyy" = true
    ∧ (parse_lxc_config "hostname: box").hostname = some "box"
    ∧ (parse_lxc_config "Hostname: box").hostname = none :=
  ⟨by decide, by decide, by decide⟩

/-- Claim C9 (amended): the eight hidden-marker patterns (managed,
oci-image, application-id, application-name, addon, username, uid, gid)
are case-insensitive but are plain substring searches, not line-anchored:
each of them matches embedded mid-token, and the managed tag is proved to
match inside every prefix/suffix context; the four visible fallback
labels (OCI image, Application ID, the double-hash name, Version) are
line-anchored — a mid-token occurrence does not match, a later-line
occurrence does — and the lettered ones match case-insensitively; the
hostname fallback alone is case-sensitive, line-anchored, and allows no
leading whitespace. -/
theorem claim_C9 (pre post : String) :
    (is_managed_container (pre ++ "oci-lxc-deployer:managed" ++ post) = true
      ∧ is_managed_container "<!-- OCI-LXC-DEPLOYER:MANAGED -->" = true)
    ∧ ((parse_lxc_config "xxoci-lxc-deployer:oci-image img -->yy").oci_image
        = some "img"
      ∧ (parse_lxc_config "OCI-LXC-DEPLOYER:OCI-IMAGE img -->").oci_image
        = some "img")
    ∧ ((parse_lxc_config
          "xxoci-lxc-deployer:application-id demo -->yy").application_id
        = some "demo"
      ∧ (parse_lxc_config
          "OCI-LXC-DEPLOYER:APPLICATION-ID demo -->").application_id
        = some "demo")
    ∧ ((parse_lxc_config
          "xxoci-lxc-deployer:application-name Nm -->yy").application_name
        = some "Nm"
      ∧ (parse_lxc_config
          "OCI-LXC-DEPLOYER:APPLICATION-NAME Nm -->").application_name
        = some "Nm")
    ∧ ((parse_lxc_config "xxoci-lxc-deployer:addon a1 -->yy").addons = ["a1"]
      ∧ (parse_lxc_config "OCI-LXC-DEPLOYER:ADDON a1 -->").addons = ["a1"])
    ∧ ((parse_lxc_config "xxoci-lxc-deployer:username bob -->yy").username
        = some "bob"
      ∧ (parse_lxc_config "OCI-LXC-DEPLOYER:USERNAME bob -->").username
        = some "bob")
    ∧ ((parse_lxc_config "xxoci-lxc-deployer:uid 42 -->yy").uid = some "42"
      ∧ (parse_lxc_config "OCI-LXC-DEPLOYER:UID 42 -->").uid = some "42")
    ∧ ((parse_lxc_config "xxoci-lxc-deployer:gid 43 -->yy").gid = some "43"
      ∧ (parse_lxc_config "OCI-LXC-DEPLOYER:GID 43 -->").gid = some "43")
    ∧ ((parse_lxc_config "OCI image: img").oci_image = some "img"
      ∧ (parse_lxc_config "oci IMAGE: img").oci_image = some "img"
      ∧ (parse_lxc_config "xOCI image: img").oci_image = none)
    ∧ ((parse_lxc_config "Application ID: app").application_id = some "app"
      ∧ (parse_lxc_config "APPLICATION id: app").application_id = some "app"
      ∧ (parse_lxc_config "xApplication ID: app").application_id = none)
    ∧ ((parse_lxc_config "## Name").application_name = some "Name"
      ∧ (parse_lxc_config "x## Name").application_name = none)
    ∧ ((parse_lxc_config "Version: 1.2.0").version = some "1.2.0"
      ∧ (parse_lxc_config "vERSION: 1.2.0").version = some "1.2.0"
      ∧ (parse_lxc_config "xVersion: 1.2.0").version = none
      ∧ (parse_lxc_config "x\nVersion: 1.2.0").version = some "1.2.0")
    ∧ ((parse_lxc_config "hostname: box").hostname = some "box"
      ∧ (parse_lxc_config "Hostname: box").hostname = none
      ∧ (parse_lxc_config " hostname: box").hostname = none
      ∧ (parse_lxc_config "x\nhostname: box").hostname = some "box") := by
  refine ⟨⟨?_, by decide⟩, by decide, by decide, by decide, by decide,
    by decide, by decide, by decide, by decide, by decide, by decide,
    by decide, by decide⟩
  have hdata : (pre ++ "oci-lxc-deployer:managed" ++ post).data
      = pre.data ++ (managedTag ++ post.data) := by
    rw [String.data_append, String.data_append, List.append_assoc]
    rfl
  have hone : searchSubCI managedTag
      (normalize_config_text (pre ++ "oci-lxc-deployer:managed" ++ post)).data
      = true := by
    have hm : (normalize_config_text (pre ++ "oci-lxc-deployer:managed" ++ post)).data
        = replEscNlAux false ((pre ++ "oci-lxc-deployer:managed" ++ post).data) := rfl
    rw [hm, hdata]
    obtain ⟨a, p2, hq⟩ := replEscNlAux_skeleton pre.data false
    rw [hq (managedTag ++ post.data)]
    obtain ⟨pd, hpd⟩ := replEscNlAux_managedTag p2 post.data
    rw [hpd, ← List.append_assoc]
    exact searchSubCI_embed managedTag (a ++ pd) (replEscNlAux false post.data)
  have hun : is_managed_container (pre ++ "oci-lxc-deployer:managed" ++ post)
      = (searchSubCI managedTag
          (normalize_config_text (pre ++ "oci-lxc-deployer:managed" ++ post)).data
        || searchSubCI managedTag
          (decode_config_text
            (normalize_config_text (pre ++ "oci-lxc-deployer:managed" ++ post))).data) :=
    rfl
  rw [hun, hone, Bool.true_or]

/-- Witness for claim C9 at the concrete prefix "xx" and suffix "yy". -/
theorem claim_C9_witness :
    is_managed_container ("xx" ++ "oci-lxc-deployer:managed" ++ "yy") = true :=
  (claim_C9 "xx" "yy").1.1

end OciLxc
